import Mathlib

/-!
Verification of the broker-recommendations scraper (`src/crawler.py`,
`src/handlers.py`, `src/models.py`) against its specification.

The Python code is shallowly embedded: strings are `String`/`List Char`
(the scraped strings on these code paths are ASCII, so Python's
`str.lower`/`str.upper`/`str.strip` are modelled by their ASCII versions),
Python floats are modelled as `ℚ` (every number built by this code is an
exact decimal), parsed HTML is a tree of nodes, and the network (the
acquisition strategies and the secondary price lookup) is passed in as an
explicit oracle argument.  Each regular expression used by the crawler is
compiled by hand into an executable character-list matcher that follows
the Python `re` semantics (leftmost search, greedy/lazy quantifiers,
non-overlapping `findall`); the original pattern is quoted in the doc
comment of each matcher.
-/

set_option autoImplicit false

attribute [local semireducible] Rat.add Rat.sub Rat.mul Rat.inv

namespace BrokerRec

/-! ### ASCII character and string helpers (Python `str` methods) -/

/-- Python `\s` on ASCII: space, tab, newline, carriage return, vertical
tab, form feed. -/
def isPyWS (c : Char) : Bool :=
  c = ' ' || c = '\t' || c = '\n' || c = '\r' || c = '\x0b' || c = '\x0c'

def isDigitCh (c : Char) : Bool := '0' ≤ c && c ≤ '9'

def isLowerCh (c : Char) : Bool := 'a' ≤ c && c ≤ 'z'

def isUpperCh (c : Char) : Bool := 'A' ≤ c && c ≤ 'Z'

def isAlphaCh (c : Char) : Bool := isLowerCh c || isUpperCh c

/-- Regex `\w` on ASCII. -/
def isWordCh (c : Char) : Bool := isAlphaCh c || isDigitCh c || c = '_'

def lowerCh (c : Char) : Char :=
  if isUpperCh c then Char.ofNat (c.toNat + 32) else c

def upperCh (c : Char) : Char :=
  if isLowerCh c then Char.ofNat (c.toNat - 32) else c

def lowerL (s : List Char) : List Char := s.map lowerCh

def upperL (s : List Char) : List Char := s.map upperCh

/-- Python `str.lower()` (ASCII). -/
def pyLower (s : String) : String := ⟨lowerL s.data⟩

/-- Python `str.upper()` (ASCII). -/
def pyUpper (s : String) : String := ⟨upperL s.data⟩

def startsL : List Char → List Char → Bool
  | [], _ => true
  | _ :: _, [] => false
  | p :: ps, c :: cs => p = c && startsL ps cs

/-- `containsL needle hay`: Python `needle in hay` for strings. -/
def containsL (needle : List Char) : List Char → Bool
  | [] => needle.isEmpty
  | c :: t => startsL needle (c :: t) || containsL needle t

/-- Python `sub in hay` for strings. -/
def pyContains (hay sub : String) : Bool := containsL sub.data hay.data

def stripL (s : List Char) : List Char :=
  ((s.dropWhile isPyWS).reverse.dropWhile isPyWS).reverse

/-- Python `str.strip()` (ASCII whitespace). -/
def pyStrip (s : String) : String := ⟨stripL s.data⟩

def splitWSAux : List Char → List Char → List (List Char)
  | [], acc => if acc.isEmpty then [] else [acc.reverse]
  | c :: t, acc =>
    if isPyWS c then
      if acc.isEmpty then splitWSAux t [] else acc.reverse :: splitWSAux t []
    else splitWSAux t (c :: acc)

/-- Python `str.split()` with no argument: split on whitespace runs,
dropping empty fields. -/
def splitWS (s : List Char) : List (List Char) := splitWSAux s []

def takeDigits (s : List Char) : List Char × List Char :=
  (s.takeWhile isDigitCh, s.dropWhile isDigitCh)

/-- Numeric value of a digit string. -/
def digitsVal (ds : List Char) : Nat :=
  ds.foldl (fun n c => n * 10 + (c.toNat - 48)) 0

/-- Python `min` of two numbers (spelled out so that kernel evaluation
on concrete inputs goes through the decidable order on `ℚ`). -/
def minQ (a b : ℚ) : ℚ := if a ≤ b then a else b

/-- Python `max` of two numbers. -/
def maxQ (a b : ℚ) : ℚ := if a ≤ b then b else a

/-- Python `abs`. -/
def absQ (a : ℚ) : ℚ := if a < 0 then -a else a

theorem minQ_nonneg {a b : ℚ} (ha : 0 ≤ a) (hb : 0 ≤ b) : 0 ≤ minQ a b := by
  unfold minQ
  split <;> assumption

theorem maxQ_nonneg {a b : ℚ} (ha : 0 ≤ a) : 0 ≤ maxQ a b := by
  unfold maxQ
  split
  · next hab => exact le_trans ha hab
  · exact ha

def insertAsc (x : ℚ) : List ℚ → List ℚ
  | [] => [x]
  | y :: ys => if x ≤ y then x :: y :: ys else y :: insertAsc x ys

/-- Python `list.sort()` for a list of numbers (ascending). -/
def sortAsc (l : List ℚ) : List ℚ := l.foldr insertAsc []

/-! ### Regex scanning primitives

A matcher has type `List Char → Option (α × List Char)`: it matches a
pattern anchored at the head of its input and returns the captured value
together with the rest of the input after the whole match.  `searchPos`
is `re.search` (leftmost position wins), `findAll` is `re.findall`
(leftmost, non-overlapping, resuming after each match). -/

def searchPos {α : Type} (m : List Char → Option α) : List Char → Option α
  | [] => m []
  | c :: t =>
    match m (c :: t) with
    | some a => some a
    | none => searchPos m t

/-- Like `searchPos` but the matcher also receives the character just
before the current position, for `\b` lookbehind. -/
def searchPosB {α : Type} (m : Option Char → List Char → Option α) :
    Option Char → List Char → Option α
  | prev, [] => m prev []
  | prev, c :: t =>
    match m prev (c :: t) with
    | some a => some a
    | none => searchPosB m (some c) t

def findAllAux {α : Type} (m : List Char → Option (α × List Char)) :
    Nat → List Char → List α
  | 0, _ => []
  | _ + 1, [] =>
    match m [] with
    | some (a, _) => [a]
    | none => []
  | fuel + 1, c :: t =>
    match m (c :: t) with
    | some (a, rest) => a :: findAllAux m fuel rest
    | none => findAllAux m fuel t

/-- `re.findall`: all non-overlapping matches, scanning left to right
(every matcher in this file consumes at least one character, so the fuel
`length + 1` is never exhausted). -/
def findAll {α : Type} (m : List Char → Option (α × List Char)) (s : List Char) : List α :=
  findAllAux m (s.length + 1) s

/-- Like `findAll` but the matcher sees the previous character (`\b`).
After a match the scan resumes after the match, remembering the last
consumed character. -/
def findAllBAux {α : Type} (m : Option Char → List Char → Option (α × List Char)) :
    Nat → Option Char → List Char → List α
  | 0, _, _ => []
  | _ + 1, prev, [] =>
    match m prev [] with
    | some (a, _) => [a]
    | none => []
  | fuel + 1, prev, c :: t =>
    match m prev (c :: t) with
    | some (a, rest) =>
      let consumed := (c :: t).length - rest.length
      a :: findAllBAux m fuel ((c :: t).take consumed).getLast? rest
    | none => findAllBAux m fuel (some c) t

def findAllB {α : Type} (m : Option Char → List Char → Option (α × List Char))
    (s : List Char) : List α :=
  findAllBAux m (s.length + 1) none s

/-- Case-insensitive literal: the pattern is given in lowercase. -/
def litCI : List Char → List Char → Option (List Char)
  | [], s => some s
  | _ :: _, [] => none
  | p :: ps, c :: cs => if lowerCh c = p then litCI ps cs else none

/-- Case-sensitive literal. -/
def litCS : List Char → List Char → Option (List Char)
  | [], s => some s
  | _ :: _, [] => none
  | p :: ps, c :: cs => if c = p then litCS ps cs else none

/-- `\s*`. -/
def dropWS (s : List Char) : List Char := s.dropWhile isPyWS

/-- `\s+` (greedy). -/
def ws1 : List Char → Option (List Char)
  | [] => none
  | c :: t => if isPyWS c then some (dropWS t) else none

/-- `[:\s]*`. -/
def dropColonWS (s : List Char) : List Char :=
  s.dropWhile (fun c => c = ':' || isPyWS c)

/-- `\.?`. -/
def optDot : List Char → List Char
  | '.' :: t => t
  | s => s

/-- The `(?:,\d{3})*` part of the price number pattern, folded into the
value accumulated so far. -/
def commaGroups : Nat → List Char → Nat × List Char
  | n, ',' :: a :: b :: c :: r =>
    if isDigitCh a && isDigitCh b && isDigitCh c then
      commaGroups (n * 1000 + digitsVal [a, b, c]) r
    else (n, ',' :: a :: b :: c :: r)
  | n, r => (n, r)

/-- Sequencing of matcher steps (`Option.bind`, written as an explicit
match so that proofs and kernel evaluation stay transparent). -/
def bindO {α β : Type} : Option α → (α → Option β) → Option β
  | none, _ => none
  | some a, f => f a

/-- Ordered alternation of matchers: the first success wins. -/
def orO {α : Type} : Option α → Option α → Option α
  | some a, _ => some a
  | none, b => b

/-- The price-number group `(\d+(?:,\d{3})*(?:\.\d+)?)` used throughout
`_extract_prices`; the returned rational is exactly
`float(match.replace(",", ""))`. -/
def parseMoney (s : List Char) : Option (ℚ × List Char) :=
  match takeDigits s with
  | ([], _) => none
  | (d :: ds, r1) =>
    match commaGroups (digitsVal (d :: ds)) r1 with
    | (whole, r2) =>
      match r2 with
      | '.' :: r3 =>
        match takeDigits r3 with
        | ([], _) => some ((whole : ℚ), r2)
        | (f :: fs, r4) =>
          some ((whole : ℚ) + (digitsVal (f :: fs) : ℚ) / ((10 : ℚ) ^ (f :: fs).length), r4)
      | _ => some ((whole : ℚ), r2)

/-- `Rs\.?\s*(NUM)` (case-insensitive), the tail shared by most price
patterns; `NUM` abbreviates the price-number group of `parseMoney`. -/
def rsMoney (s : List Char) : Option (ℚ × List Char) :=
  bindO (litCI "rs".data s) fun s1 => parseMoney (dropWS (optDot s1))

/-- `Rs\s*(NUM)` (case-insensitive, no optional dot), used on `title`
attributes in `_extract_prices_from_html`. -/
def rsMoneyNoDot (s : List Char) : Option (ℚ × List Char) :=
  bindO (litCI "rs".data s) fun s1 => parseMoney (dropWS s1)

/-! ### The eleven pattern rules of `_extract_prices` (crawler.py 977-1146) -/

/-- `target\s+of\s+Rs\.?\s*(NUM)` (re.I). -/
def mTargetOfRs (s : List Char) : Option (ℚ × List Char) :=
  bindO (litCI "target".data s) fun s1 =>
  bindO (ws1 s1) fun s2 =>
  bindO (litCI "of".data s2) fun s3 =>
  bindO (ws1 s3) fun s4 =>
  rsMoney s4

/-- `Target(?:\s*Price)?[:\s]*Rs\.?\s*(NUM)` (re.I); the optional
`\s*Price` is tried first and dropped on failure, as the backtracking
engine would. -/
def mTargetColon (s : List Char) : Option (ℚ × List Char) :=
  bindO (litCI "target".data s) fun s1 =>
    match litCI "price".data (dropWS s1) with
    | some s2 => orO (rsMoney (dropColonWS s2)) (rsMoney (dropColonWS s1))
    | none => rsMoney (dropColonWS s1)

/-- `(?:TP|PT)[:\s]*Rs\.?\s*(NUM)` (re.I). -/
def mTpPt (s : List Char) : Option (ℚ × List Char) :=
  orO (bindO (litCI "tp".data s) fun s1 => rsMoney (dropColonWS s1))
    (bindO (litCI "pt".data s) fun s1 => rsMoney (dropColonWS s1))

/-- `price\s+target\s+of\s+Rs\.?\s*(NUM)` (re.I); its tail is exactly the
`target of Rs` pattern. -/
def mPriceTargetOf (s : List Char) : Option (ℚ × List Char) :=
  bindO (litCI "price".data s) fun s1 =>
  bindO (ws1 s1) fun s2 =>
  mTargetOfRs s2

/-- Tail `\s*Price[:\s]*Rs\.?\s*(NUM)` of the current-price keyword
pattern. -/
def mCurrentPriceTail (s : List Char) : Option (ℚ × List Char) :=
  bindO (litCI "price".data (dropWS s)) fun s1 => rsMoney (dropColonWS s1)

/-- `(?:Reco|Current|CMP)\s*Price[:\s]*Rs\.?\s*(NUM)` (re.I). -/
def mCurrentPrice (s : List Char) : Option (ℚ × List Char) :=
  orO (bindO (litCI "reco".data s) mCurrentPriceTail)
    (orO (bindO (litCI "current".data s) mCurrentPriceTail)
      (bindO (litCI "cmp".data s) mCurrentPriceTail))

/-- `(?:at|@)\s*Rs\.?\s*(NUM)` (re.I). -/
def mAtRs (s : List Char) : Option (ℚ × List Char) :=
  orO (bindO (litCI "at".data s) fun s1 => rsMoney (dropWS s1))
    (bindO (litCI "@".data s) fun s1 => rsMoney (dropWS s1))

/-- `CMP[:\s]*Rs\.?\s*(NUM)` (re.I). -/
def mCmp (s : List Char) : Option (ℚ × List Char) :=
  bindO (litCI "cmp".data s) fun s1 => rsMoney (dropColonWS s1)

/-- `Rs\.?\s*(NUM)\s*-\s*(NUM)` (re.I), the price-range pattern. -/
def mRange (s : List Char) : Option ((ℚ × ℚ) × List Char) :=
  bindO (rsMoney s) fun ps =>
    match dropWS ps.2 with
    | '-' :: s2 =>
      bindO (parseMoney (dropWS s2)) fun qs => some ((ps.1, qs.1), qs.2)
    | _ => none

/-- `\s*,?\s*`. -/
def commaWS (s : List Char) : List Char :=
  match dropWS s with
  | ',' :: t => dropWS t
  | r => r

/-- Tail `(NUM)\s*,?\s*(?:target|tp)\s+(NUM)` of the buy-at pattern. -/
def mBuyTargetTail (s : List Char) : Option ((ℚ × ℚ) × List Char) :=
  bindO (parseMoney s) fun ps =>
  bindO (orO (litCI "target".data (commaWS ps.2)) (litCI "tp".data (commaWS ps.2))) fun s4 =>
  bindO (ws1 s4) fun s5 =>
  bindO (parseMoney s5) fun qs =>
  some ((ps.1, qs.1), qs.2)

/-- `(?:buy|purchase)\s+(?:at\s+)?(NUM)\s*,?\s*(?:target|tp)\s+(NUM)`
(re.I); the optional `at\s+` is tried first, as the engine would. -/
def mBuyTarget (s : List Char) : Option ((ℚ × ℚ) × List Char) :=
  bindO (orO (litCI "buy".data s) (litCI "purchase".data s)) fun s1 =>
  bindO (ws1 s1) fun s2 =>
  orO (bindO (litCI "at".data s2) fun s3 => bindO (ws1 s3) fun s4 => mBuyTargetTail s4)
    (mBuyTargetTail s2)

/-- `\((NUM)[/\-](NUM)\)`, the bracket pair pattern. -/
def mBracket (s : List Char) : Option ((ℚ × ℚ) × List Char) :=
  match s with
  | '(' :: s1 =>
    bindO (parseMoney s1) fun ps =>
      match ps.2 with
      | c :: s3 =>
        if c = '/' || c = '-' then
          bindO (parseMoney s3) fun qs =>
            match qs.2 with
            | ')' :: s5 => some ((ps.1, qs.1), s5)
            | _ => none
        else none
      | [] => none
  | _ => none

/-- One `re.findall` match of `(\d{3,5})\s+(\d{3,5})` (the bare
number-pair pattern): the first group must be a maximal digit run of
length 3-5 (a longer run leaves a digit where `\s+` is required), the
second group greedily takes up to five digits of the following run. -/
def mNumPair (s : List Char) : Option ((ℚ × ℚ) × List Char) :=
  match takeDigits s with
  | (ds, r1) =>
    if 3 ≤ ds.length && ds.length ≤ 5 then
      match ws1 r1 with
      | none => none
      | some r2 =>
        match takeDigits r2 with
        | (es, r3) =>
          if 3 ≤ es.length then
            let takeN := min es.length 5
            some (((digitsVal ds : ℚ), (digitsVal (es.take takeN) : ℚ)), es.drop takeN ++ r3)
          else none
    else none

/-- All matches of `\b(\d{3,5})\b` (the standalone-number pattern):
maximal digit runs of length 3-5 flanked by non-word characters.  The
accumulator character is the previous character (for the left `\b`). -/
def standaloneNumsAux : Nat → Option Char → List Char → List ℚ
  | 0, _, _ => []
  | _ + 1, _, [] => []
  | fuel + 1, prev, c :: t =>
    let boundaryBefore :=
      match prev with
      | some p => !isWordCh p
      | none => true
    if isDigitCh c && boundaryBefore then
      match takeDigits (c :: t) with
      | (ds, r) =>
        let boundaryAfter :=
          match r with
          | [] => true
          | x :: _ => !isWordCh x
        let rest := standaloneNumsAux fuel (some (ds.getLastD c)) r
        if 3 ≤ ds.length && ds.length ≤ 5 && boundaryAfter then
          (digitsVal ds : ℚ) :: rest
        else rest
    else standaloneNumsAux fuel (some c) t

def standaloneNums (s : List Char) : List ℚ :=
  standaloneNumsAux (s.length + 1) none s

/-! ### `_extract_prices` as an ordered cascade over a price state -/

structure Prices where
  current : ℚ
  target : ℚ
deriving DecidableEq

/-- Rule 1: `target of Rs` (assigns the target slot on a match; it is the
first target rule, so it carries no guard in the source). -/
def ruleTargetOfRs (t : List Char) (s : Prices) : Prices :=
  match searchPos mTargetOfRs t with
  | some (q, _) => { s with target := q }
  | none => s

/-- Rule 2: `Target(: )Rs`, tried only while the target slot is 0. -/
def ruleTargetColon (t : List Char) (s : Prices) : Prices :=
  if s.target = 0 then
    match searchPos mTargetColon t with
    | some (q, _) => { s with target := q }
    | none => s
  else s

/-- Rule 3: `TP/PT: Rs`, tried only while the target slot is 0. -/
def ruleTpPt (t : List Char) (s : Prices) : Prices :=
  if s.target = 0 then
    match searchPos mTpPt t with
    | some (q, _) => { s with target := q }
    | none => s
  else s

/-- Rule 4: `price target of Rs`, tried only while the target slot is 0. -/
def rulePriceTargetOf (t : List Char) (s : Prices) : Prices :=
  if s.target = 0 then
    match searchPos mPriceTargetOf t with
    | some (q, _) => { s with target := q }
    | none => s
  else s

/-- Rule 5: `Reco/Current/CMP Price: Rs` (first current rule, no guard in
the source). -/
def ruleCurrentPrice (t : List Char) (s : Prices) : Prices :=
  match searchPos mCurrentPrice t with
  | some (q, _) => { s with current := q }
  | none => s

/-- Rule 6: `at/@ Rs`, tried only while the current slot is 0. -/
def ruleAtRs (t : List Char) (s : Prices) : Prices :=
  if s.current = 0 then
    match searchPos mAtRs t with
    | some (q, _) => { s with current := q }
    | none => s
  else s

/-- Rule 7: `CMP: Rs`, tried only while the current slot is 0. -/
def ruleCmp (t : List Char) (s : Prices) : Prices :=
  if s.current = 0 then
    match searchPos mCmp t with
    | some (q, _) => { s with current := q }
    | none => s
  else s

/-- Rule 8: the `Rs N1 - N2` range pattern; min feeds an empty current
slot, max an empty target slot. -/
def ruleRange (t : List Char) (s : Prices) : Prices :=
  if s.current = 0 ∨ s.target = 0 then
    match searchPos mRange t with
    | some ((p1, p2), _) =>
      { current := if s.current = 0 then minQ p1 p2 else s.current,
        target := if s.target = 0 then maxQ p1 p2 else s.target }
    | none => s
  else s

/-- The unanchored `Rs\.?\s*(NUM)` numbers of the text, filtered to the
10-50000 plausibility window (crawler.py 1048-1058). -/
def rsWindow (t : List Char) : List ℚ :=
  (findAll rsMoney t).filter (fun p => decide (10 ≤ p ∧ p ≤ 50000))

/-- Rule 9: unanchored Rs-prefixed numbers; with two or more survivors
the sorted list fills empty slots from both ends, with exactly one
survivor only the target slot is offered. -/
def ruleRsNumbers (t : List Char) (s : Prices) : Prices :=
  if s.current = 0 ∨ s.target = 0 then
    if 2 ≤ (rsWindow t).length then
      { current := if s.current = 0 then (sortAsc (rsWindow t)).headD 0 else s.current,
        target := if s.target = 0 then (sortAsc (rsWindow t)).getLastD 0 else s.target }
    else if (rsWindow t).length = 1 then
      { s with target := if s.target = 0 then (rsWindow t).headD 0 else s.target }
    else s
  else s

/-- Rule 10: `buy at N1, target N2` assigns directly without min/max. -/
def ruleBuyTarget (t : List Char) (s : Prices) : Prices :=
  if s.current = 0 ∨ s.target = 0 then
    match searchPos mBuyTarget t with
    | some ((p1, p2), _) =>
      { current := if s.current = 0 then p1 else s.current,
        target := if s.target = 0 then p2 else s.target }
    | none => s
  else s

/-- Rule 11: the `(N1/N2)` bracket pair, windowed to 10-50000. -/
def ruleBracket (t : List Char) (s : Prices) : Prices :=
  if s.current = 0 ∨ s.target = 0 then
    match searchPos mBracket t with
    | some ((p1, p2), _) =>
      if 10 ≤ p1 ∧ p1 ≤ 50000 ∧ 10 ≤ p2 ∧ p2 ≤ 50000 then
        { current := if s.current = 0 then minQ p1 p2 else s.current,
          target := if s.target = 0 then maxQ p1 p2 else s.target }
      else s
    | none => s
  else s

/-- The loop body of rule 12: the first windowed pair with relative
difference below one half assigns both empty slots and breaks. -/
def numPairsLoop (s : Prices) : List (ℚ × ℚ) → Prices
  | [] => s
  | (p1, p2) :: rest =>
    if 50 ≤ p1 ∧ p1 ≤ 50000 ∧ 50 ≤ p2 ∧ p2 ≤ 50000 then
      if absQ (p2 - p1) / p1 < 1 / 2 then
        { current := if s.current = 0 then minQ p1 p2 else s.current,
          target := if s.target = 0 then maxQ p1 p2 else s.target }
      else numPairsLoop s rest
    else numPairsLoop s rest

/-- Rule 12: bare `(\d{3,5})\s+(\d{3,5})` number pairs. -/
def ruleNumPairs (t : List Char) (s : Prices) : Prices :=
  if s.current = 0 ∨ s.target = 0 then numPairsLoop s (findAll mNumPair t) else s

/-- The standalone 3-5 digit numbers of the text, filtered to the
100-20000 plausibility window (crawler.py 1124-1132). -/
def bareWindow (t : List Char) : List ℚ :=
  (standaloneNums t).filter (fun p => decide (100 ≤ p ∧ p ≤ 20000))

/-- Rule 13: standalone 3-5 digit numbers in the 100-20000 window; with
two or more, the sorted list fills empty slots from both ends. -/
def ruleStandalone (t : List Char) (s : Prices) : Prices :=
  if s.current = 0 ∨ s.target = 0 then
    if 2 ≤ (bareWindow t).length then
      { current := if s.current = 0 then (sortAsc (bareWindow t)).headD 0 else s.current,
        target := if s.target = 0 then (sortAsc (bareWindow t)).getLastD 0 else s.target }
    else s
  else s

/-- Rules 1-8 of `_extract_prices`: the keyword-anchored target and
current rules followed by the range rule, in source order. -/
def keywordRangeRules (t : List Char) (s : Prices) : Prices :=
  ruleRange t (ruleCmp t (ruleAtRs t (ruleCurrentPrice t
    (rulePriceTargetOf t (ruleTpPt t (ruleTargetColon t (ruleTargetOfRs t s)))))))

/-- Rules 10-13, the rules after the unanchored-Rs rule, in source
order. -/
def lateRules (t : List Char) (s : Prices) : Prices :=
  ruleStandalone t (ruleNumPairs t (ruleBracket t (ruleBuyTarget t s)))

def extractPricesL (t : List Char) : Prices :=
  lateRules t (ruleRsNumbers t (keywordRangeRules t ⟨0, 0⟩))

/-- `_extract_prices` (crawler.py 977-1146): the full ordered cascade,
starting from both slots unknown. -/
def extractPrices (text : String) : Prices := extractPricesL text.data

/-! ### `_extract_recommendation` and `_remove_duplicates` -/

/-- `_extract_recommendation` (crawler.py 1148-1156): case-insensitive
substring checks in order BUY, SELL, HOLD, defaulting to BUY. -/
def extractRecommendation (callText : String) : String :=
  if pyContains (pyUpper callText) "BUY" || pyContains (pyUpper callText) "BUYS" then "BUY"
  else if pyContains (pyUpper callText) "SELL" || pyContains (pyUpper callText) "SELLS" then "SELL"
  else if pyContains (pyUpper callText) "HOLD" || pyContains (pyUpper callText) "HOLDS" then "HOLD"
  else "BUY"

/-- The `BrokerRecommendation` dataclass (models.py).  `reporting_date`
is the `datetime.now()` reading at record construction, modelled as a
rational timestamp. -/
structure BrokerRecommendation where
  broker_name : String
  company_name : String
  recommendation : String
  target_price : ℚ
  current_price : ℚ
  reporting_date : ℚ
deriving DecidableEq

/-- The deduplication key `(company_name.lower(), broker_name.lower())`. -/
def dedupKey (r : BrokerRecommendation) : String × String :=
  (pyLower r.company_name, pyLower r.broker_name)

def removeDuplicatesAux : List BrokerRecommendation → List (String × String) →
    List BrokerRecommendation
  | [], _ => []
  | r :: rs, seen =>
    if dedupKey r ∈ seen then removeDuplicatesAux rs seen
    else r :: removeDuplicatesAux rs (dedupKey r :: seen)

/-- `_remove_duplicates` (crawler.py 1193-1203): keep a record only when
its key has not been seen yet. -/
def removeDuplicates (recs : List BrokerRecommendation) : List BrokerRecommendation :=
  removeDuplicatesAux recs []

/-- Specification-side deduplication, following the spec words: among all
records sharing a key, exactly the first-encountered survives; records
with distinct keys are all kept. -/
def dedupSpec : List BrokerRecommendation → List BrokerRecommendation
  | [] => []
  | r :: rs => r :: dedupSpec (rs.filter (fun x => decide (dedupKey x ≠ dedupKey r)))
termination_by l => l.length
decreasing_by
  simp only [List.length_cons]
  exact Nat.lt_succ_of_le (List.length_filter_le _ _)

/-! ### The HTTP handlers (handlers.py) -/

/-- The fields of the deserialized Lambda request event that the
handlers consult (`event["httpMethod"]` and `event["headers"]`; the
headers keep their insertion order, as a Python dict does). -/
structure Event where
  httpMethod : String
  headers : List (String × String)
deriving DecidableEq

/-- The loop of `validate_api_key` (handlers.py 22-27): the first header
whose lowercased name is "x-api-key" decides immediately. -/
def validateApiKeyAux (apiKey : String) : List (String × String) → Bool
  | [] => false
  | (k, v) :: rest =>
    if pyLower k = "x-api-key" then decide (v = apiKey)
    else validateApiKeyAux apiKey rest

/-- `validate_api_key` (handlers.py 22-27). -/
def validateApiKey (apiKey : String) (e : Event) : Bool :=
  validateApiKeyAux apiKey e.headers

/-- A record as serialized into the /recommendations response body
(handlers.py 116-127). -/
structure RecOut where
  broker_name : String
  company_name : String
  recommendation : String
  target_price : ℚ
  current_price : ℚ
  reporting_date : ℚ
deriving DecidableEq

def toRecOut (r : BrokerRecommendation) : RecOut :=
  ⟨r.broker_name, r.company_name, r.recommendation, r.target_price,
    r.current_price, r.reporting_date⟩

/-- The JSON bodies the handlers produce (what `create_response`
serializes).  Timestamps are the `datetime.now()` reading, modelled as a
rational. -/
inductive Body where
  | empty
  | errorBody (error : String)
  | recommendationsBody (recommendations : List RecOut) (timestamp : ℚ)
      (total_recommendations : Nat)
  | topCompaniesBody (top_companies : List (Nat × String × ℚ)) (timestamp : ℚ)
      (based_on_recommendations : Nat)
  | topBrokersBody (top_brokers : List (Nat × String × ℚ)) (timestamp : ℚ)
      (based_on_recommendations : Nat)
  | statsBody (total_recommendations buy_recommendations sell_recommendations : Nat)
      (average_target_price : ℚ) (timestamp : ℚ)
  | healthBody (status : String) (timestamp : ℚ) (service : String)
  | messageBody (message : String)
deriving DecidableEq

/-- The fixed CORS headers of `create_response` (handlers.py 31-36). -/
def corsHeaders : List (String × String) :=
  [("Content-Type", "application/json"),
   ("Access-Control-Allow-Origin", "*"),
   ("Access-Control-Allow-Headers", "Content-Type,X-Api-Key"),
   ("Access-Control-Allow-Methods", "GET,POST,OPTIONS")]

structure Resp where
  statusCode : Nat
  headers : List (String × String)
  body : Body
deriving DecidableEq

/-- `create_response` (handlers.py 30-45). -/
def createResponse (statusCode : Nat) (body : Body) : Resp :=
  ⟨statusCode, corsHeaders, body⟩

/-- `filter_recommendations` (handlers.py 48-59): non-empty company and
verdict, company name longer than two characters, verdict in
BUY/SELL/HOLD. -/
def filterRecommendations (recs : List BrokerRecommendation) : List BrokerRecommendation :=
  recs.filter fun r =>
    decide (r.company_name ≠ "") && decide (r.recommendation ≠ "") &&
    decide (2 < r.company_name.length) &&
    (["BUY", "SELL", "HOLD"] : List String).contains r.recommendation

/-- Append a target price to a key's bucket, Python `defaultdict(list)`
style (key insertion order preserved). -/
def addTarget (key : String) (v : ℚ) : List (String × List ℚ) → List (String × List ℚ)
  | [] => [(key, [v])]
  | (k, vs) :: rest =>
    if k = key then (k, vs ++ [v]) :: rest
    else (k, vs) :: addTarget key v rest

/-- The grouping loops of `get_top_companies`/`get_top_brokers`: bucket
the positive target prices by key. -/
def groupTargets (key : BrokerRecommendation → String)
    (recs : List BrokerRecommendation) : List (String × List ℚ) :=
  recs.foldl
    (fun acc r => if 0 < r.target_price then addTarget (key r) r.target_price acc else acc) []

/-- Python `sum` over a list of numbers. -/
def sumQ (l : List ℚ) : ℚ := l.foldl (fun a b => a + b) 0

/-- Python `max` over a non-empty list ( `0` for the empty list, which
the callers never produce). -/
def maxList : List ℚ → ℚ
  | [] => 0
  | x :: xs => xs.foldl maxQ x

/-- One insertion step of the stable descending sort used to model
Python `sorted(key=..., reverse=True)`: an element passes over exactly
the strictly-greater ones, so ties keep their original order. -/
def insertDescBy (x : String × ℚ) : List (String × ℚ) → List (String × ℚ)
  | [] => [x]
  | y :: ys => if y.2 ≤ x.2 then x :: y :: ys else y :: insertDescBy x ys

def sortDescBy (l : List (String × ℚ)) : List (String × ℚ) := l.foldr insertDescBy []

/-- `get_top_companies` (handlers.py 62-75): mean positive target price
per company, sorted descending, first `limit` entries. -/
def getTopCompanies (recs : List BrokerRecommendation) (limit : Nat) : List (String × ℚ) :=
  (sortDescBy ((groupTargets (fun r => r.company_name) recs).map
    (fun kv => (kv.1, sumQ kv.2 / (kv.2.length : ℚ))))).take limit

/-- `get_top_brokers` (handlers.py 78-91): best positive target price
per broker, sorted descending, first `limit` entries. -/
def getTopBrokers (recs : List BrokerRecommendation) (limit : Nat) : List (String × ℚ) :=
  (sortDescBy ((groupTargets (fun r => r.broker_name) recs).map
    (fun kv => (kv.1, maxList kv.2)))).take limit

/-- Python `round(x, 2)` on the ideal-rational model of floats:
half-to-even at two decimals. -/
def roundHalfEvenZ (q : ℚ) : ℤ :=
  if q - ⌊q⌋ < 1 / 2 then ⌊q⌋
  else if (1 : ℚ) / 2 < q - ⌊q⌋ then ⌊q⌋ + 1
  else if ⌊q⌋ % 2 = 0 then ⌊q⌋ else ⌊q⌋ + 1

def round2 (q : ℚ) : ℚ := (roundHalfEvenZ (q * 100) : ℚ) / 100

/-- The rank/round enumeration building `TopCompany`/`TopBroker` rows
(handlers.py 161-164 and 197-200). -/
def rankListAux (i : Nat) : List (String × ℚ) → List (Nat × String × ℚ)
  | [] => []
  | (k, v) :: rest => (i + 1, k, round2 v) :: rankListAux (i + 1) rest

def rankList (l : List (String × ℚ)) : List (Nat × String × ℚ) := rankListAux 0 l

/-- `get_recommendations` (crawler.py 33-59).  The two acquisition
strategies are network-bound, so their outcomes are passed in as
oracles: `Except.error` models an exception escaping the strategy call
(swallowed by the surrounding `try`, which returns `[]`), `Except.ok`
its returned list.  An empty first result falls through to the second
strategy; total exhaustion yields `[]`, never an exception. -/
def getRecommendations (selenium httpRequests : Except String (List BrokerRecommendation)) :
    List BrokerRecommendation :=
  match selenium with
  | .error _ => []
  | .ok recs =>
    if recs.isEmpty then
      match httpRequests with
      | .error _ => []
      | .ok recs2 => if recs2.isEmpty then [] else recs2
    else recs

/-- `lambda_handler` (handlers.py 94-140).  The crawl outcome is passed
as an oracle (`Except.error` models an exception inside the `try`,
answered with a 500); OPTIONS and the API-key gate are checked before
the crawler is consulted. -/
def lambdaHandler (apiKey : String) (crawl : Except String (List BrokerRecommendation))
    (now : ℚ) (event : Event) : Resp :=
  if event.httpMethod = "OPTIONS" then createResponse 200 .empty
  else if ¬ validateApiKey apiKey event then
    createResponse 401 (.errorBody "Invalid API key")
  else
    match crawl with
    | .error e => createResponse 500 (.errorBody e)
    | .ok recs =>
      createResponse 200 (.recommendationsBody
        ((filterRecommendations recs).map toRecOut) now (filterRecommendations recs).length)

/-- `top_companies_handler` (handlers.py 143-176). -/
def topCompaniesHandler (apiKey : String) (crawl : Except String (List BrokerRecommendation))
    (now : ℚ) (event : Event) : Resp :=
  if event.httpMethod = "OPTIONS" then createResponse 200 .empty
  else if ¬ validateApiKey apiKey event then
    createResponse 401 (.errorBody "Invalid API key")
  else
    match crawl with
    | .error e => createResponse 500 (.errorBody e)
    | .ok recs =>
      createResponse 200 (.topCompaniesBody
        (rankList (getTopCompanies (filterRecommendations recs) 10)) now
        (filterRecommendations recs).length)

/-- `top_brokers_handler` (handlers.py 179-212). -/
def topBrokersHandler (apiKey : String) (crawl : Except String (List BrokerRecommendation))
    (now : ℚ) (event : Event) : Resp :=
  if event.httpMethod = "OPTIONS" then createResponse 200 .empty
  else if ¬ validateApiKey apiKey event then
    createResponse 401 (.errorBody "Invalid API key")
  else
    match crawl with
    | .error e => createResponse 500 (.errorBody e)
    | .ok recs =>
      createResponse 200 (.topBrokersBody
        (rankList (getTopBrokers (filterRecommendations recs) 10)) now
        (filterRecommendations recs).length)

/-- `health_check_handler` (handlers.py 215-217): no OPTIONS branch and
no API-key gate; always the 200 health body. -/
def healthCheckHandler (now : ℚ) (_event : Event) : Resp :=
  createResponse 200 (.healthBody "healthy" now "broker-recommendations")

/-- `cleanup_handler` (handlers.py 220-230): NO OPTIONS branch — the
API-key gate comes first. -/
def cleanupHandler (apiKey : String) (event : Event) : Resp :=
  if ¬ validateApiKey apiKey event then
    createResponse 401 (.errorBody "Invalid API key")
  else createResponse 200 (.messageBody "Docker container handles cleanup automatically")

/-- The average-target computation of `stats_handler` (handlers.py
245-248): 0 when the filtered list is empty or holds no positive
target, else the mean of the positive targets. -/
def statsAvgTarget (recs : List BrokerRecommendation) : ℚ :=
  if recs.isEmpty then 0
  else
    if ((recs.map (fun r => r.target_price)).filter (fun t => decide (0 < t))).isEmpty then 0
    else
      sumQ ((recs.map (fun r => r.target_price)).filter (fun t => decide (0 < t))) /
        (((recs.map (fun r => r.target_price)).filter (fun t => decide (0 < t))).length : ℚ)

/-- `stats_handler` (handlers.py 233-262): NO OPTIONS branch — the
API-key gate comes first. -/
def statsHandler (apiKey : String) (crawl : Except String (List BrokerRecommendation))
    (now : ℚ) (event : Event) : Resp :=
  if ¬ validateApiKey apiKey event then
    createResponse 401 (.errorBody "Invalid API key")
  else
    match crawl with
    | .error e => createResponse 500 (.errorBody e)
    | .ok recs =>
      createResponse 200 (.statsBody
        (filterRecommendations recs).length
        ((filterRecommendations recs).filter (fun r => decide (r.recommendation = "BUY"))).length
        ((filterRecommendations recs).filter (fun r => decide (r.recommendation = "SELL"))).length
        (round2 (statsAvgTarget (filterRecommendations recs))) now)

/-! ### The parsed HTML document model

`BeautifulSoup(html, "html.parser")` is a deterministic parser, so a
markup input is modelled by its parse tree.  `HForest` is the list of
children as a mutual inductive, which keeps every traversal structurally
recursive (and therefore kernel-evaluable on concrete documents). -/

mutual
inductive HNode where
  | elem (tag : String) (attrs : List (String × String)) (children : HForest)
  | text (s : String)
inductive HForest where
  | nil
  | cons (head : HNode) (tail : HForest)
end

mutual
def textsN : HNode → List String
  | .text s => [s]
  | .elem _ _ cs => textsF cs
def textsF : HForest → List String
  | .nil => []
  | .cons c cs => textsN c ++ textsF cs
end

def joinAll (l : List String) : String := l.foldl (fun a b => a ++ b) ""

/-- BeautifulSoup `get_text()`: the concatenation of all text
descendants, in document order. -/
def getText (n : HNode) : String := joinAll (textsN n)

/-- BeautifulSoup `get_text(strip=True)`: each fragment stripped before
concatenation. -/
def getTextStrip (n : HNode) : String := joinAll ((textsN n).map pyStrip)

def attrValue? (attrs : List (String × String)) (name : String) : Option String :=
  match attrs.find? (fun kv => decide (kv.1 = name)) with
  | some kv => some kv.2
  | none => none

def attrValueD (attrs : List (String × String)) (name d : String) : String :=
  (attrValue? attrs name).getD d

def hasAttr (attrs : List (String × String)) (name : String) : Bool :=
  (attrValue? attrs name).isSome

/-- The multi-valued `class` attribute, split on whitespace as
BeautifulSoup does. -/
def classesOf (attrs : List (String × String)) : List (List Char) :=
  splitWS (attrValueD attrs "class" "").data

def joinSpace : List String → String
  | [] => ""
  | [x] => x
  | x :: xs => x ++ " " ++ joinSpace xs

/-- BeautifulSoup `.string`: descend through single-child elements to a
lone text node, else `None`. -/
def nodeString : HNode → Option String
  | .text s => some s
  | .elem _ _ (.cons c .nil) => nodeString c
  | .elem _ _ _ => none

mutual
def elemsN : HNode → List HNode
  | .text _ => []
  | .elem t a cs => HNode.elem t a cs :: elemsF cs
def elemsF : HForest → List HNode
  | .nil => []
  | .cons c cs => elemsN c ++ elemsF cs
end

/-- All element descendants of a node, excluding itself, in document
order (what `find_all` with a tag filter scans). -/
def descendants : HNode → List HNode
  | .elem _ _ cs => elemsF cs
  | .text _ => []

def findTags (n : HNode) (tags : List String) : List HNode :=
  (descendants n).filter fun c =>
    match c with
    | .elem t _ _ => tags.contains t
    | .text _ => false

def forestElems : HForest → List HNode
  | .nil => []
  | .cons c cs =>
    match c with
    | .elem .. => c :: forestElems cs
    | .text _ => forestElems cs

/-- `find_all(..., recursive=False)`: direct element children with one
of the given tags. -/
def directChildren (n : HNode) (tags : List String) : List HNode :=
  match n with
  | .elem _ _ cs => (forestElems cs).filter fun c =>
      match c with
      | .elem t _ _ => tags.contains t
      | .text _ => false
  | .text _ => []

/-- An element located in a document: its own fields plus its ancestor
chain (nearest first, each ancestor as its full subtree, ending at the
document root — whose own `.parent` is `None`) and its element siblings
(`prevSibs` nearest first, as `find_previous_siblings` returns them;
`nextSibs` in document order). -/
structure LocElem where
  tag : String
  attrs : List (String × String)
  children : HForest
  ancestors : List HNode
  prevSibs : List HNode
  nextSibs : List HNode

def locNode (c : LocElem) : HNode := .elem c.tag c.attrs c.children

mutual
def descsN (anc : List HNode) (prevSibs nextSibs : List HNode) : HNode → List LocElem
  | .text _ => []
  | .elem t a cs =>
    ⟨t, a, cs, anc, prevSibs, nextSibs⟩ :: descsF (HNode.elem t a cs :: anc) [] cs
def descsF (anc : List HNode) (prevAcc : List HNode) : HForest → List LocElem
  | .nil => []
  | .cons c cs =>
    descsN anc prevAcc (forestElems cs) c ++
      descsF anc
        (match c with
         | .elem .. => c :: prevAcc
         | .text _ => prevAcc) cs
end

/-- All element descendants of `root` (excluding itself), in document
order, with their context. -/
def locElems (root : HNode) : List LocElem :=
  match root with
  | .elem _ _ cs => descsF [root] [] cs
  | .text _ => []

def quoteAttr (v : String) : String := "\"" ++ v ++ "\""

mutual
def renderN : HNode → String
  | .text s => s
  | .elem t a cs =>
    "<" ++ t ++ joinAll (a.map fun kv => " " ++ kv.1 ++ "=" ++ quoteAttr kv.2) ++ ">" ++
      renderF cs ++ "</" ++ t ++ ">"
def renderF : HForest → String
  | .nil => ""
  | .cons c cs => renderN c ++ renderF cs
end

/-! ### Company-name extraction and cleaning (crawler.py 716-827) -/

/-- The denylist of `_is_valid_company_name`. -/
def invalidNames : List String :=
  ["all stats", "view all", "read more", "click here", "see more", "home", "about",
   "contact", "login", "register", "search", "menu", "portfolio", "watchlist", "news",
   "research", "analysis", "market", "stock", "share", "price", "chart", "data", "report"]

def nonCompanyWords : List String :=
  ["the", "and", "or", "for", "with", "from", "to", "by", "at", "on", "in"]

/-- `_is_valid_company_name` (crawler.py 764-814). -/
def isValidCompanyName (name : String) : Bool :=
  if name = "" || name.length < 3 || 50 < name.length then false
  else if invalidNames.contains (pyLower name) then false
  else if !(name.data.any isAlphaCh) then false
  else if name.length < 2 * (name.data.filter isDigitCh).length then false
  else
    match splitWS (pyLower name).data with
    | [] => true
    | w :: _ => !nonCompanyWords.contains (String.mk w)

/-- Anchored `^(?:Buy|Sell|Hold)\s+` (re.I), removed by
`_clean_company_name`. -/
def stripVerbPrefix (s : List Char) : List Char :=
  match orO (litCI "buy".data s) (orO (litCI "sell".data s) (litCI "hold".data s)) with
  | some r =>
    match ws1 r with
    | some r2 => r2
    | none => s
  | none => s

/-- One match attempt of `;\s*target\s+of\s+Rs\s*\d+` (re.I), the
anchor of the target-suffix removal (the trailing `.*$` erases to the
end). -/
def mSemiTarget (s : List Char) : Bool :=
  match s with
  | ';' :: r =>
    (match litCI "target".data (dropWS r) with
     | some r1 =>
       match ws1 r1 with
       | some r2 =>
         match litCI "of".data r2 with
         | some r3 =>
           match ws1 r3 with
           | some r4 =>
             match litCI "rs".data r4 with
             | some r5 => !((dropWS r5).takeWhile isDigitCh).isEmpty
             | none => false
           | none => false
         | none => false
       | none => false
     | none => false)
  | _ => false

def cutTargetSuffix : List Char → List Char
  | [] => []
  | c :: t => if mSemiTarget (c :: t) then [] else c :: cutTargetSuffix t

/-- The character class `[A-Za-z\s&\.]` of the broker-name group. -/
def isClassBroker (c : Char) : Bool := isAlphaCh c || isPyWS c || c = '&' || c = '.'

/-- `re.sub(r":\s*[A-Za-z\s&\.]+$", "", ...)`: erase from the first
colon whose whole tail consists of broker-name characters. -/
def cutColonSuffix : List Char → List Char
  | [] => []
  | c :: t =>
    if c = ':' && !t.isEmpty && t.all isClassBroker then []
    else c :: cutColonSuffix t

def collapseWSAux : Bool → List Char → List Char
  | _, [] => []
  | prevWS, c :: t =>
    if isPyWS c then
      if prevWS then collapseWSAux true t else ' ' :: collapseWSAux true t
    else c :: collapseWSAux false t

/-- `re.sub(r"\s+", " ", ...)`. -/
def collapseWS (s : List Char) : List Char := collapseWSAux false s

/-- `_clean_company_name` (crawler.py 816-827). -/
def cleanCompanyName (name : String) : String :=
  if name = "" then ""
  else
    pyStrip (String.mk (collapseWS (cutColonSuffix (cutTargetSuffix (stripVerbPrefix name.data)))))

/-- `[A-Z][a-z]+` (maximal, as the following pattern element can never
consume a lowercase letter). -/
def capWord (s : List Char) : Option (List Char × List Char) :=
  match s with
  | c :: t =>
    if isUpperCh c then
      let ls := t.takeWhile isLowerCh
      if ls.isEmpty then none else some (c :: ls, t.dropWhile isLowerCh)
    else none
  | [] => none

def boundaryAfter : List Char → Bool
  | [] => true
  | c :: _ => !isWordCh c

/-- One `\s+[A-Z][a-z]+` step. -/
def wsCap (s : List Char) : Option (List Char × List Char × List Char) :=
  let ws := s.takeWhile isPyWS
  if ws.isEmpty then none
  else
    match capWord (s.dropWhile isPyWS) with
    | some (w, rest) => some (ws, w, rest)
    | none => none

/-- The greedy `(?:\s+[A-Z][a-z]+)*\s+(?:SUFFIX...)\b` tail: more star
iterations are preferred, so the deepest capword equal to a suffix word
(with a word boundary after it) is used, exactly the regex engine's
backtracking order.  Returns (chars consumed by the star, chars of the
`\s+SUFFIX` step, rest). -/
def capChainAux (suffixes : List String) : Nat → List Char →
    Option ((List Char × List Char) × List Char)
  | 0, _ => none
  | fuel + 1, s =>
    match wsCap s with
    | none => none
    | some (ws, w, r) =>
      match capChainAux suffixes fuel r with
      | some ((ext, sfx), rest) => some ((ws ++ w ++ ext, sfx), rest)
      | none =>
        if suffixes.contains (String.mk w) && boundaryAfter r then
          some (([], ws ++ w), r)
        else none

/-- `\b([A-Z][a-z]+(?:\s+[A-Z][a-z]+)*)\s+(?:SUFFIX...)\b` anchored at
the current position, `prev` being the previous character (for the left
`\b`).  Returns ((capture before the suffix step, suffix step chars),
rest after the whole match). -/
def matchCapSuffix (suffixes : List String) (prev : Option Char) (s : List Char) :
    Option ((List Char × List Char) × List Char) :=
  if (match prev with | some p => isWordCh p | none => false) then none
  else
    match capWord s with
    | none => none
    | some (w0, r) =>
      match capChainAux suffixes (r.length + 1) r with
      | some ((ext, sfx), rest) => some ((w0 ++ ext, sfx), rest)
      | none => none

/-- The suffix alternation of the first company pattern (crawler.py
751). -/
def companySuffixes : List String :=
  ["Ltd", "Limited", "Industries", "Bank", "Corp", "Corporation", "Financial",
   "Services", "Motors", "Steel", "Power", "Energy", "Pharma", "Technologies"]

/-- Company pattern 1: the capture includes the suffix word. -/
def mCompanyPattern1 (prev : Option Char) (s : List Char) : Option (String × List Char) :=
  match matchCapSuffix companySuffixes prev s with
  | some ((pre, sfx), rest) => some (String.mk (pre ++ sfx), rest)
  | none => none

/-- The known large-cap alternation of company pattern 2 (crawler.py
752), tried in source order at each position. -/
def knownCompanyNames : List String :=
  ["Reliance", "TCS", "Infosys", "HDFC", "ICICI", "SBI", "Wipro", "HCL", "Bharti",
   "Maruti", "Asian Paints", "ITC", "Hindustan Unilever", "Bajaj", "Mahindra", "Tata"]

def litAltB (names : List String) (s : List Char) : Option (String × List Char) :=
  match names with
  | [] => none
  | n :: ns =>
    match litCS n.data s with
    | some r => if boundaryAfter r then some (n, r) else litAltB ns s
    | none => litAltB ns s

def mCompanyPattern2 (prev : Option Char) (s : List Char) : Option (String × List Char) :=
  if (match prev with | some p => isWordCh p | none => false) then none
  else litAltB knownCompanyNames s

def companyLinksLoop1 : List HNode → Option String
  | [] => none
  | l :: ls =>
    let href := attrValueD (match l with | .elem _ a _ => a | .text _ => []) "href" ""
    let txt := getTextStrip l
    if pyContains href "/stockpricequote/" && 2 < txt.length then
      if isValidCompanyName (cleanCompanyName txt) then some (cleanCompanyName txt)
      else companyLinksLoop1 ls
    else companyLinksLoop1 ls

def companyLinksLoop2 : List HNode → Option String
  | [] => none
  | l :: ls =>
    let href := attrValueD (match l with | .elem _ a _ => a | .text _ => []) "href" ""
    let txt := getTextStrip l
    if (pyContains href "/stocks/" || pyContains href "/company/") && 2 < txt.length then
      if isValidCompanyName (cleanCompanyName txt) then some (cleanCompanyName txt)
      else companyLinksLoop2 ls
    else companyLinksLoop2 ls

def companyBoldLoop : List HNode → Option String
  | [] => none
  | e :: es =>
    if isValidCompanyName (cleanCompanyName (getTextStrip e)) then
      some (cleanCompanyName (getTextStrip e))
    else companyBoldLoop es

def companyMatchesLoop : List String → Option String
  | [] => none
  | m :: ms =>
    if isValidCompanyName (cleanCompanyName m) then some (cleanCompanyName m)
    else companyMatchesLoop ms

/-- `_extract_company_name` (crawler.py 716-762): stock-quote links,
then generic stock links, then headings/bold, then the two regex
patterns over the full text; first valid cleaned candidate wins, else
the empty string. -/
def extractCompanyName (n : HNode) : String :=
  match companyLinksLoop1 (findTags n ["a"]) with
  | some name => name
  | none =>
  match companyLinksLoop2 (findTags n ["a"]) with
  | some name => name
  | none =>
  match companyBoldLoop (findTags n ["b", "strong", "h1", "h2", "h3", "h4", "h5", "h6"]) with
  | some name => name
  | none =>
  match companyMatchesLoop (findAllB mCompanyPattern1 (getText n).data) with
  | some name => name
  | none =>
  match companyMatchesLoop (findAllB mCompanyPattern2 (getText n).data) with
  | some name => name
  | none => ""

/-! ### Broker-name extraction (crawler.py 829-908) -/

/-- The lazy group `([A-Za-z\s&\.]+?)(?:\s|$|;|:)`: after at least one
class character, stop at the first terminator. -/
def lazyClassAux (acc : List Char) : List Char → Option String
  | [] => if acc.isEmpty then none else some (String.mk acc.reverse)
  | c :: t =>
    if !acc.isEmpty && (isPyWS c || c = ';' || c = ':') then some (String.mk acc.reverse)
    else if isClassBroker c then lazyClassAux (c :: acc) t
    else none

def lazyClassGroup (s : List Char) : Option String := lazyClassAux [] s

/-- The `\s+` before the lazy group, with the engine's backtracking:
prefer consuming as many spaces as possible, handing fewer to the
whitespace-containing group only on failure. -/
def researchByTailAux : Nat → List Char → Option String
  | 0, _ => none
  | k + 1, s =>
    match lazyClassGroup (s.drop (k + 1)) with
    | some g => some g
    | none => researchByTailAux k s

/-- `Research by\s+([A-Za-z\s&\.]+?)(?:\s|$|;|:)` (case-sensitive)
anchored at the current position; the returned group is as captured
(the caller strips it). -/
def mResearchBy (s : List Char) : Option String :=
  match litCS "Research by".data s with
  | some r => researchByTailAux (r.takeWhile isPyWS).length r
  | none => none

/-- `:\s*([A-Za-z\s&\.]+?)(?:\s*$)` anchored at a colon: it matches iff
the whole tail consists of broker-name characters, and the stripped
captured group is then the stripped tail (the greedy `\s*`, the lazy
group and the final `\s*$` together split off exactly the surrounding
whitespace). -/
def mColonBroker (s : List Char) : Option String :=
  match s with
  | ':' :: r =>
    if r.isEmpty || !(r.all isClassBroker) then none
    else some (String.mk (stripL r))
  | _ => none

/-- `_is_likely_broker_name` (crawler.py 898-908). -/
def brokerWordCIAux (words : List String) : Option Char → List Char → Bool
  | _, [] => false
  | prev, c :: t =>
    ((match prev with | some p => !isWordCh p | none => true) &&
      words.any fun w =>
        match litCI (lowerL w.data) (c :: t) with
        | some r => boundaryAfter r
        | none => false) ||
    brokerWordCIAux words (some c) t

/-- `\b(WORD|...)\b` (re.I) substring search. -/
def hasWordCI (words : List String) (s : List Char) : Bool :=
  brokerWordCIAux words none s

def isLikelyBrokerName (name : String) : Bool :=
  if name.length < 3 || 30 < name.length then false
  else
    hasWordCI ["Securities", "Capital", "Wealth", "Financial", "Research", "Advisors"]
      name.data ||
    hasWordCI ["Ltd", "Limited", "Pvt", "Private"] name.data

/-- The known-brokers list of `_extract_broker_name` (crawler.py
843-877). -/
def knownBrokers : List String :=
  ["Motilal Oswal", "Prabhudas Lilladher", "Anand Rathi", "HDFC Securities",
   "ICICI Direct", "Sharekhan", "Kotak Securities", "Axis Securities", "Edelweiss",
   "YES Securities", "IIFL Securities", "Emkay Global", "Angel Broking", "Zerodha",
   "5paisa", "Upstox", "Religare Securities", "India Infoline", "SMC Global", "Geojit",
   "JM Financial", "LKP Securities", "Nirmal Bang", "Centrum Broking", "SBI Securities",
   "BOI AXA Investment", "IDBI Capital", "Ventura Securities", "Choice Broking",
   "Master Capital", "MoneyControl Research", "Equitymaster", "Dalal Street Investment"]

def brokerSuffixes : List String :=
  ["Securities", "Capital", "Broking", "Investment", "Financial", "Research"]

/-- Broker pattern 1
`\b([A-Z][a-z]+(?:\s+[A-Z][a-z]+)*)\s+(?:Securities|...)\b`: the capture
excludes the suffix word. -/
def mBrokerPattern1 (prev : Option Char) (s : List Char) : Option (String × List Char) :=
  match matchCapSuffix brokerSuffixes prev s with
  | some ((pre, _), rest) => some (String.mk pre, rest)
  | none => none

/-- The `\s+(?:Securities|...)\b` tail shared by broker patterns 2 and
3. -/
def wsSuffix (s : List Char) : Option (List Char) :=
  let ws := s.takeWhile isPyWS
  if ws.isEmpty then none
  else
    match capWord (s.dropWhile isPyWS) with
    | some (w, rest) =>
      if brokerSuffixes.contains (String.mk w) && boundaryAfter rest then some rest
      else none
    | none => none

/-- Broker pattern 2: `\b([A-Z][a-z]+)\s+(?:Securities|...)\b`. -/
def mBrokerPattern2 (prev : Option Char) (s : List Char) : Option (String × List Char) :=
  if (match prev with | some p => isWordCh p | none => false) then none
  else
    match capWord s with
    | some (w0, r) =>
      match wsSuffix r with
      | some rest => some (String.mk w0, rest)
      | none => none
    | none => none

/-- Broker pattern 3: `\b([A-Z]{2,5})\s+(?:Securities|...)\b` (a longer
capital run cannot match, since the sixth capital blocks `\s+`). -/
def mBrokerPattern3 (prev : Option Char) (s : List Char) : Option (String × List Char) :=
  if (match prev with | some p => isWordCh p | none => false) then none
  else
    let caps := s.takeWhile isUpperCh
    if 2 ≤ caps.length && caps.length ≤ 5 then
      match wsSuffix (s.drop caps.length) with
      | some rest => some (String.mk caps, rest)
      | none => none
    else none

def brokerPatternLoop : List String → Option String
  | [] => none
  | m :: ms =>
    if 2 < m.length && !(["the", "and", "ltd", "limited"].contains (pyLower m)) then
      some (m ++ " Securities")
    else brokerPatternLoop ms

/-- The pattern cascade at the end of `_extract_broker_name` (crawler.py
883-894). -/
def brokerPatterns (text : String) : String :=
  match brokerPatternLoop (findAllB mBrokerPattern1 text.data) with
  | some b => b
  | none =>
  match brokerPatternLoop (findAllB mBrokerPattern2 text.data) with
  | some b => b
  | none =>
  match brokerPatternLoop (findAllB mBrokerPattern3 text.data) with
  | some b => b
  | none => ""

/-- The known-brokers substring scan and the suffix patterns (rules c
and d of `_extract_broker_name`). -/
def brokerKnownOrPatterns (text : String) : String :=
  match knownBrokers.find? (fun b => containsL (lowerL b.data) (lowerL text.data)) with
  | some b => b
  | none => brokerPatterns text

/-- `_extract_broker_name` (crawler.py 829-896): the "Research by"
phrase, then a broker-looking tail after a colon, then the known-brokers
list, then the name-plus-suffix patterns; the empty string if nothing
matches. -/
def extractBrokerName (text : String) : String :=
  match searchPos mResearchBy text.data with
  | some g => pyStrip g
  | none =>
    match searchPos mColonBroker text.data with
    | some potential =>
      if isLikelyBrokerName potential then potential else brokerKnownOrPatterns text
    | none => brokerKnownOrPatterns text

/-! ### Python `float()` on strings -/

def expDigits (neg : Bool) (s : List Char) : Option Int :=
  let ds := s.takeWhile isDigitCh
  if ds.isEmpty || !(s.drop ds.length).isEmpty then none
  else some (if neg then -(digitsVal ds : Int) else (digitsVal ds : Int))

def pyFloatExpPart : List Char → Option Int
  | [] => some 0
  | c :: r =>
    if c = 'e' || c = 'E' then
      match r with
      | '+' :: r2 => expDigits false r2
      | '-' :: r2 => expDigits true r2
      | _ => expDigits false r
    else none

def applyExp (q : ℚ) (e : Int) : ℚ :=
  if 0 ≤ e then q * (10 : ℚ) ^ e.toNat else q / (10 : ℚ) ^ (-e).toNat

def pyFloatBody (s : List Char) : Option ℚ :=
  let ip := s.takeWhile isDigitCh
  let r1 := s.drop ip.length
  match r1 with
  | '.' :: r2 =>
    let fp := r2.takeWhile isDigitCh
    let r3 := r2.drop fp.length
    if ip.isEmpty && fp.isEmpty then none
    else
      (pyFloatExpPart r3).map fun e =>
        applyExp ((digitsVal ip : ℚ) + (digitsVal fp : ℚ) / (10 : ℚ) ^ fp.length) e
  | _ =>
    if ip.isEmpty then none
    else (pyFloatExpPart r1).map fun e => applyExp (digitsVal ip : ℚ) e

/-- Python `float(str)`: optional sign, decimal digits with an optional
point and exponent (the underscore, infinity and nan forms never reach
it in this code), whitespace stripped; `none` models `ValueError`. -/
def pyFloat? (s : String) : Option ℚ :=
  match stripL s.data with
  | '+' :: r => pyFloatBody r
  | '-' :: r => (pyFloatBody r).map Neg.neg
  | r => pyFloatBody r

def isDigitStr (s : List Char) : Bool := !s.isEmpty && s.all isDigitCh

def remDots (s : List Char) : List Char := s.filter fun c => c ≠ '.'

def remCommas (s : List Char) : List Char := s.filter fun c => c ≠ ','

/-! ### `_extract_prices_from_html` (crawler.py 515-648) -/

/-- The `data-price` attribute loop (crawler.py 522-531).  The Boolean
signals the one uncaught failure point of the whole function: `float()`
raising on an attribute that is digits-and-dots but not a float (two or
more dots); the outer `except` then logs and the partial state is
returned, skipping all later stages. -/
def dataPriceLoop : List LocElem → Prices → Prices × Bool
  | [], s => (s, false)
  | e :: es, s =>
    match attrValue? e.attrs "data-price" with
    | none => dataPriceLoop es s
    | some v =>
      if isDigitStr (remDots v.data) then
        match pyFloat? v with
        | some price =>
          if 10 ≤ price ∧ price ≤ 50000 then
            dataPriceLoop es
              (if s.target = 0 then { s with target := price }
               else if s.current = 0 then { s with current := price }
               else s)
          else dataPriceLoop es s
        | none => (s, true)
      else dataPriceLoop es s

/-- The `title` attribute loop (crawler.py 534-544): note the
assignments here carry no zero-slot guard. -/
def titleLoop : List LocElem → Prices → Prices
  | [], s => s
  | e :: es, s =>
    let title := attrValueD e.attrs "title" ""
    match searchPos rsMoneyNoDot title.data with
    | some pr =>
      if 10 ≤ pr.1 ∧ pr.1 ≤ 50000 then
        titleLoop es
          (if pyContains (pyLower title) "target" then { s with target := pr.1 }
           else if pyContains (pyLower title) "current" || pyContains (pyLower title) "cmp" then
             { s with current := pr.1 }
           else s)
      else titleLoop es s
    | none => titleLoop es s

/-- The per-number branch of the price-class loop (crawler.py
552-569). -/
def classNumsLoop (cls lowTxt : String) : List ℚ → Prices → Prices
  | [], s => s
  | price :: rest, s =>
    if 10 ≤ price ∧ price ≤ 50000 then
      classNumsLoop cls lowTxt rest
        (if pyContains cls "target" || pyContains lowTxt "target" then
           (if s.target = 0 then { s with target := price } else s)
         else if pyContains cls "current" || pyContains lowTxt "current" ||
             pyContains cls "cmp" then
           (if s.current = 0 then { s with current := price } else s)
         else if s.target = 0 then { s with target := price }
         else if s.current = 0 then { s with current := price }
         else s)
    else classNumsLoop cls lowTxt rest s

/-- The price-class loop (crawler.py 547-569). -/
def classLoop : List LocElem → Prices → Prices
  | [], s => s
  | e :: es, s =>
    classLoop es
      (classNumsLoop (pyLower (joinSpace ((classesOf e.attrs).map String.mk)))
        (pyLower (getTextStrip (locNode e)))
        (findAll parseMoney (getTextStrip (locNode e)).data) s)

/-- The shared branch shape of the cell, numeric-element and later
stages: target/tp context fills the target slot if empty, current/cmp/
price context the current slot, anything else whichever of the two is
still empty, target first (crawler.py 583-594 and 612-623). -/
def contextAssign (ctx : String) (price : ℚ) (s : Prices) : Prices :=
  if pyContains ctx "target" || pyContains ctx "tp" then
    (if s.target = 0 then { s with target := price } else s)
  else if pyContains ctx "current" || pyContains ctx "cmp" || pyContains ctx "price" then
    (if s.current = 0 then { s with current := price } else s)
  else if s.target = 0 then { s with target := price }
  else if s.current = 0 then { s with current := price }
  else s

/-- The table-cell loop (crawler.py 572-596): a cell whose stripped text
is exactly one number, with the first three siblings (next before
previous) as context. -/
def cellLoop : List LocElem → Prices → Prices
  | [], s => s
  | e :: es, s =>
    match parseMoney (getTextStrip (locNode e)).data with
    | some (price, []) =>
      if 10 ≤ price ∧ price ≤ 50000 then
        cellLoop es
          (contextAssign
            (joinSpace (((e.nextSibs ++ e.prevSibs).take 3).map fun sib => pyLower (getText sib)))
            price s)
      else cellLoop es s
    | _ => cellLoop es s

/-- The numeric span/div/strong/b loop (crawler.py 599-625): context is
the element's own markup plus its parent's markup, lowercased. -/
def numericLoop : List LocElem → Prices → Prices
  | [], s => s
  | e :: es, s =>
    match parseMoney (getTextStrip (locNode e)).data with
    | some (price, []) =>
      if 10 ≤ price ∧ price ≤ 50000 then
        numericLoop es
          (contextAssign
            (pyLower (renderN (locNode e)) ++ " " ++
              (match e.ancestors with
               | p :: _ => pyLower (renderN p)
               | [] => ""))
            price s)
      else numericLoop es s
    | _ => numericLoop es s

/-- The hidden-input loop (crawler.py 628-643); a `float` failure here
is caught (`except ValueError: continue`). -/
def hiddenLoop : List LocElem → Prices → Prices
  | [], s => s
  | e :: es, s =>
    let name := pyLower (attrValueD e.attrs "name" "")
    let value := attrValueD e.attrs "value" ""
    if (pyContains name "price" || pyContains name "target") &&
        isDigitStr (remCommas (remDots value.data)) then
      match pyFloat? (String.mk (remCommas value.data)) with
      | some price =>
        if 10 ≤ price ∧ price ≤ 50000 then
          hiddenLoop es
            (if pyContains name "target" then
               (if s.target = 0 then { s with target := price } else s)
             else if pyContains name "current" || pyContains name "cmp" then
               (if s.current = 0 then { s with current := price } else s)
             else s)
        else hiddenLoop es s
      | none => hiddenLoop es s
    else hiddenLoop es s

def priceClassWords : List String := ["price", "target", "current", "cmp"]

def classesMatch (attrs : List (String × String)) (words : List String) : Bool :=
  (classesOf attrs).any fun cl => words.any fun w => containsL w.data (lowerL cl)

/-- `_extract_prices_from_html` (crawler.py 515-648): six stages over
the element descendants of the container, each filtered as the
corresponding `find_all` call filters. -/
def extractPricesFromHtml (c : LocElem) : Prices :=
  let inner := locElems (locNode c)
  let d := dataPriceLoop (inner.filter fun e => hasAttr e.attrs "data-price") ⟨0, 0⟩
  if d.2 then d.1
  else
    let s2 := titleLoop (inner.filter fun e =>
      match attrValue? e.attrs "title" with
      | some v => (searchPos rsMoneyNoDot v.data).isSome
      | none => false) d.1
    let s3 := classLoop (inner.filter fun e => classesMatch e.attrs priceClassWords) s2
    let s4 := cellLoop (inner.filter fun e =>
      ["td", "th"].contains e.tag &&
        (match nodeString (locNode e) with
         | some str => str.data.any isDigitCh
         | none => false)) s3
    let s5 := numericLoop (inner.filter fun e =>
      ["span", "div", "strong", "b"].contains e.tag &&
        (match nodeString (locNode e) with
         | some str => str.data.any isDigitCh
         | none => false)) s4
    hiddenLoop (inner.filter fun e =>
      decide (e.tag = "input") && decide (attrValue? e.attrs "type" = some "hidden")) s5

/-! ### `_extract_recommendation_from_container` (crawler.py 432-513) -/

/-- The surrounding elements searched when a slot is still empty:
the container itself, then its parent and the parent's direct
div/span/td children (crawler.py 463-466). -/
def searchElements (c : LocElem) : List HNode :=
  locNode c ::
    (match c.ancestors with
     | [] => []
     | p :: _ => p :: directChildren p ["div", "span", "td"])

/-- The surrounding-element loop (crawler.py 468-478): fill each empty
slot from a positive extraction, stop once both are filled. -/
def surroundLoop : List HNode → Prices → Prices
  | [], s => s
  | e :: es, s =>
    let q := extractPricesL (getText e).data
    let s2 : Prices :=
      ⟨if s.current = 0 ∧ 0 < q.current then q.current else s.current,
       if s.target = 0 ∧ 0 < q.target then q.target else s.target⟩
    if 0 < s2.current ∧ 0 < s2.target then s2 else surroundLoop es s2

/-- The price part of the container extraction, before the API fetch:
HTML extraction, then the surrounding search if a slot is empty, then
plain text extraction if both still are (crawler.py 457-485). -/
def containerPrices (c : LocElem) : Prices :=
  let p1 := extractPricesFromHtml c
  let p2 := if p1.current = 0 ∨ p1.target = 0 then surroundLoop (searchElements c) p1 else p1
  if p2.current = 0 ∧ p2.target = 0 then extractPricesL (getText (locNode c)).data else p2

def brokerOrDefault (text : String) : String :=
  if extractBrokerName text = "" then "MoneyControl Research" else extractBrokerName text

/-- The final current price: when still zero it is whatever the
MoneyControl API fetch returns for the company (crawler.py 488-490),
here an oracle parameter. -/
def containerFinalCurrent (fetch : String → ℚ) (c : LocElem) : ℚ :=
  if (containerPrices c).current = 0 ∧ extractCompanyName (locNode c) ≠ "" then
    fetch (extractCompanyName (locNode c))
  else (containerPrices c).current

/-- `_extract_recommendation_from_container` (crawler.py 432-513).
`fetch` is the price API oracle, `now` the value of `datetime.now()`. -/
def extractRecommendationFromContainer (fetch : String → ℚ) (now : ℚ) (c : LocElem) :
    Option BrokerRecommendation :=
  if extractCompanyName (locNode c) = "" ∨ ¬ isValidCompanyName (extractCompanyName (locNode c)) then
    none
  else if extractRecommendation (getText (locNode c)) = "" then none
  else
    some ⟨brokerOrDefault (getText (locNode c)),
          extractCompanyName (locNode c),
          extractRecommendation (getText (locNode c)),
          (containerPrices c).target,
          containerFinalCurrent fetch c,
          now⟩

/-- `_extract_recommendation_from_context` (crawler.py 650-677). -/
def extractRecommendationFromContext (now : ℚ) (companyName contextText : String) :
    Option BrokerRecommendation :=
  if ¬ isValidCompanyName companyName then none
  else if extractRecommendation contextText = "" then none
  else
    some ⟨brokerOrDefault contextText,
          cleanCompanyName companyName,
          extractRecommendation contextText,
          (extractPrices contextText).target,
          (extractPrices contextText).current,
          now⟩

/-! ### `_extract_from_text` (crawler.py 679-714) -/

/-- The character class `[A-Za-z\s&]` of the text patterns. -/
def isClassCompany (c : Char) : Bool := isAlphaCh c || isPyWS c || c = '&'

/-- `(BUY|SELL|HOLD)` under re.I, capturing the matched characters. -/
def verbAlt (s : List Char) : Option (List Char × List Char) :=
  match litCI "buy".data s with
  | some r => some (s.take 3, r)
  | none =>
  match litCI "sell".data s with
  | some r => some (s.take 4, r)
  | none =>
  match litCI "hold".data s with
  | some r => some (s.take 4, r)
  | none => none

/-- Text pattern 1 `([A-Za-z\s&]+?):\s*(BUY|SELL|HOLD)`: the lazy group
cannot cross a colon, so it is the maximal class run, which must end
exactly at a colon. -/
def mTextP1 (s : List Char) : Option ((String × String) × List Char) :=
  let run := s.takeWhile isClassCompany
  if run.isEmpty then none
  else
    match s.drop run.length with
    | ':' :: r2 =>
      match verbAlt (dropWS r2) with
      | some (v, rest) => some ((String.mk run, String.mk v), rest)
      | none => none
    | _ => none

/-- The `\s+([A-Za-z\s&]+)` tail of text pattern 2, with the engine's
backtracking: the greedy `\s+` cedes whitespace to the
whitespace-containing group only when the group would otherwise be
empty. -/
def mTextP2Aux : Nat → List Char → Option (String × List Char)
  | 0, _ => none
  | k + 1, s =>
    let g := (s.drop (k + 1)).takeWhile isClassCompany
    if g.isEmpty then mTextP2Aux k s
    else some (String.mk g, (s.drop (k + 1)).drop g.length)

/-- Text pattern 2 `(BUY|SELL|HOLD)\s+([A-Za-z\s&]+)`. -/
def mTextP2 (s : List Char) : Option ((String × String) × List Char) :=
  match verbAlt s with
  | some (v, r) =>
    match mTextP2Aux (r.takeWhile isPyWS).length r with
    | some (g, rest) => some ((String.mk v, g), rest)
    | none => none
  | none => none

/-- The `\s+-\s*(BUY|SELL|HOLD)` tail of text pattern 3. -/
def mTextP3Tail (s : List Char) : Option (String × List Char) :=
  match ws1 s with
  | some r =>
    match r with
    | '-' :: r2 =>
      match verbAlt (dropWS r2) with
      | some (v, rest) => some (String.mk v, rest)
      | none => none
    | _ => none
  | none => none

/-- Text pattern 3 `([A-Za-z\s&]+?)\s+-\s*(BUY|SELL|HOLD)`: the lazy
group grows one class character at a time, trying the tail after
each. -/
def mTextP3Aux : Nat → List Char → List Char → Option ((String × String) × List Char)
  | 0, _, _ => none
  | f + 1, acc, s =>
    match s with
    | [] => none
    | c :: t =>
      if isClassCompany c then
        match mTextP3Tail t with
        | some (v, rest) => some ((String.mk (acc ++ [c]), v), rest)
        | none => mTextP3Aux f (acc ++ [c]) t
      else none

def mTextP3 (s : List Char) : Option ((String × String) × List Char) :=
  mTextP3Aux s.length [] s

/-- The orientation logic inside the match loop (crawler.py 692-708):
whichever group uppercases to a verdict is the recommendation, the other
is cleaned into the company name; an invalid company skips to the next
match. -/
def textPatternOrient (now : ℚ) (m : String × String) : Option BrokerRecommendation :=
  if ["BUY", "SELL", "HOLD"].contains (pyUpper m.2) then
    (if isValidCompanyName (cleanCompanyName m.1) then
       some ⟨"MoneyControl Research", cleanCompanyName m.1, pyUpper m.2, 0, 0, now⟩
     else none)
  else
    if isValidCompanyName (cleanCompanyName m.2) then
      some ⟨"MoneyControl Research", cleanCompanyName m.2, pyUpper m.1, 0, 0, now⟩
    else none

def textMatchesLoop (now : ℚ) : List (String × String) → Option BrokerRecommendation
  | [] => none
  | m :: ms =>
    match textPatternOrient now m with
    | some r => some r
    | none => textMatchesLoop now ms

/-- `_extract_from_text` (crawler.py 679-714): the three patterns in
order, first valid hit wins. -/
def extractFromText (now : ℚ) (text : String) : Option BrokerRecommendation :=
  match textMatchesLoop now (findAll mTextP1 text.data) with
  | some r => some r
  | none =>
  match textMatchesLoop now (findAll mTextP2 text.data) with
  | some r => some r
  | none => textMatchesLoop now (findAll mTextP3 text.data)

/-! ### Embedded JSON (crawler.py 342-362 and 1377-1436)

The brace-free object regex only ever hands `json.loads` a single flat
object literal, so the JSON model needs no nested objects. -/

inductive JVal where
  | jstr (s : String)
  | jnum (isInt : Bool) (q : ℚ)
  | jbool (b : Bool)
  | jnull
  | jarr (elems : List JVal)

def jskipWS (s : List Char) : List Char :=
  s.dropWhile fun c => c = ' ' || c = '\t' || c = '\n' || c = '\r'

def hexVal (c : Char) : Option Nat :=
  if isDigitCh c then some (c.toNat - 48)
  else if 'a' ≤ c && c ≤ 'f' then some (c.toNat - 87)
  else if 'A' ≤ c && c ≤ 'F' then some (c.toNat - 55)
  else none

def jstringAux : Nat → List Char → List Char → Option (List Char × List Char)
  | 0, _, _ => none
  | _ + 1, _, [] => none
  | f + 1, acc, c :: rest =>
    if c = '"' then some (acc.reverse, rest)
    else if c = '\\' then
      match rest with
      | [] => none
      | e :: r =>
        if e = '"' then jstringAux f ('"' :: acc) r
        else if e = '\\' then jstringAux f ('\\' :: acc) r
        else if e = '/' then jstringAux f ('/' :: acc) r
        else if e = 'b' then jstringAux f ('\x08' :: acc) r
        else if e = 'f' then jstringAux f ('\x0c' :: acc) r
        else if e = 'n' then jstringAux f ('\n' :: acc) r
        else if e = 'r' then jstringAux f ('\r' :: acc) r
        else if e = 't' then jstringAux f ('\t' :: acc) r
        else if e = 'u' then
          match r with
          | a :: b :: c2 :: d :: r2 =>
            match hexVal a, hexVal b, hexVal c2, hexVal d with
            | some x, some y, some z, some w =>
              jstringAux f (Char.ofNat (((x * 16 + y) * 16 + z) * 16 + w) :: acc) r2
            | _, _, _, _ => none
          | _ => none
        else none
    else if c.toNat < 32 then none
    else jstringAux f (c :: acc) rest

/-- An explicit `[eE][+-]?\d+` exponent, returning the rest (unlike the
end-anchored variant used by `float()`). -/
def pyFloatExpPartJ : List Char → Option (Int × List Char)
  | [] => none
  | c :: r =>
    if c = 'e' || c = 'E' then
      match r with
      | '+' :: r2 =>
        (match takeDigits r2 with
         | ([], _) => none
         | (ds, r3) => some ((digitsVal ds : Int), r3))
      | '-' :: r2 =>
        (match takeDigits r2 with
         | ([], _) => none
         | (ds, r3) => some (-(digitsVal ds : Int), r3))
      | _ =>
        match takeDigits r with
        | ([], _) => none
        | (ds, r3) => some ((digitsVal ds : Int), r3)
    else none

/-- JSON number: `-?(0|[1-9]\d*)(\.\d+)?([eE][+-]?\d+)?`; the Boolean
records whether Python decodes it as `int`. -/
def jnumBody (s : List Char) : Option ((Bool × ℚ) × List Char) :=
  match takeDigits s with
  | ([], _) => none
  | (d :: ds, r1) =>
    if d = '0' && !ds.isEmpty then none
    else
      let whole : ℚ := (digitsVal (d :: ds) : ℚ)
      match r1 with
      | '.' :: r2 =>
        (match takeDigits r2 with
         | ([], _) => none
         | (f :: fs, r3) =>
           let mant := whole + (digitsVal (f :: fs) : ℚ) / (10 : ℚ) ^ (f :: fs).length
           match pyFloatExpPartJ r3 with
           | some (e, r4) => some ((false, applyExp mant e), r4)
           | none => some ((false, mant), r3))
      | _ =>
        match pyFloatExpPartJ r1 with
        | some (e, r2) => some ((false, applyExp whole e), r2)
        | none => some ((true, whole), r1)

def jnumber (s : List Char) : Option ((Bool × ℚ) × List Char) :=
  match s with
  | '-' :: r => (jnumBody r).map fun x => ((x.1.1, -x.1.2), x.2)
  | _ => jnumBody s

mutual
def jvalue : Nat → List Char → Option (JVal × List Char)
  | 0, _ => none
  | f + 1, s0 =>
    match jskipWS s0 with
    | [] => none
    | c :: r =>
      if c = '"' then
        (jstringAux (r.length + 1) [] r).map fun p => (JVal.jstr (String.mk p.1), p.2)
      else if c = '[' then
        match jskipWS r with
        | ']' :: rest => some (JVal.jarr [], rest)
        | _ => jarrayItems f r []
      else if c = 't' then
        (litCS "rue".data r).map fun rest => (JVal.jbool true, rest)
      else if c = 'f' then
        (litCS "alse".data r).map fun rest => (JVal.jbool false, rest)
      else if c = 'n' then
        (litCS "ull".data r).map fun rest => (JVal.jnull, rest)
      else
        (jnumber (c :: r)).map fun p => (JVal.jnum p.1.1 p.1.2, p.2)
def jarrayItems : Nat → List Char → List JVal → Option (JVal × List Char)
  | 0, _, _ => none
  | f + 1, s, acc =>
    match jvalue f s with
    | some (v, r) =>
      (match jskipWS r with
       | ',' :: r2 => jarrayItems f r2 (v :: acc)
       | ']' :: r2 => some (JVal.jarr (v :: acc).reverse, r2)
       | _ => none)
    | none => none
end

def jobjectItems : Nat → List Char → List (String × JVal) →
    Option (List (String × JVal) × List Char)
  | 0, _, _ => none
  | f + 1, s, acc =>
    match jskipWS s with
    | '"' :: r =>
      (match jstringAux (r.length + 1) [] r with
       | some (k, r2) =>
         (match jskipWS r2 with
          | ':' :: r3 =>
            (match jvalue (r3.length + 1) r3 with
             | some (v, r4) =>
               (match jskipWS r4 with
                | ',' :: r5 => jobjectItems f r5 ((String.mk k, v) :: acc)
                | '}' :: r5 => some (((String.mk k, v) :: acc).reverse, r5)
                | _ => none)
             | none => none)
          | _ => none)
       | none => none)
    | _ => none

/-- `json.loads` restricted to the flat object literals the candidate
regex can produce. -/
def jsonLoads (s : String) : Option (List (String × JVal)) :=
  match jskipWS s.data with
  | '{' :: r =>
    (match jskipWS r with
     | '}' :: rest => if (jskipWS rest).isEmpty then some [] else none
     | _ =>
       match jobjectItems (r.length + 1) r [] with
       | some (items, rest) => if (jskipWS rest).isEmpty then some items else none
       | none => none)
  | _ => none

/-- Dict lookup: later duplicate keys win, as in a Python dict built by
`json.loads`. -/
def jget (data : List (String × JVal)) (key : String) : Option JVal :=
  (data.reverse.find? fun kv => decide (kv.1 = key)).map fun kv => kv.2

def jTruthy : JVal → Bool
  | .jstr s => decide (s ≠ "")
  | .jnum _ q => decide (q ≠ 0)
  | .jbool b => b
  | .jnull => false
  | .jarr l => !l.isEmpty

def sq : String := String.mk ['\x27']

def fracDigits : Nat → ℚ → List Char
  | 0, _ => []
  | f + 1, x =>
    if x = 0 then []
    else
      Char.ofNat (48 + (⌊x * 10⌋).toNat) :: fracDigits f (x * 10 - (⌊x * 10⌋ : ℚ))

/-- Decimal rendering of a float value.  Python's `repr` uses the
shortest round-tripping form; the difference can only show in deep
decimal places, and a purely numeric string never passes the
company-name validity filter anyway, so no downstream decision depends
on the tail. -/
def qToDecimalString (q : ℚ) : String :=
  (if q < 0 then "-" else "") ++
    toString (⌊absQ q⌋).toNat ++ "." ++
    (let ds := fracDigits 30 (absQ q - ((⌊absQ q⌋).toNat : ℚ))
     if ds.isEmpty then "0" else String.mk ds)

mutual
def jStr : JVal → String
  | .jstr s => s
  | .jnum true q => toString q.num
  | .jnum false q => qToDecimalString q
  | .jbool true => "True"
  | .jbool false => "False"
  | .jnull => "None"
  | .jarr l => "[" ++ jReprList l ++ "]"
def jRepr : JVal → String
  | .jstr s => sq ++ s ++ sq
  | .jnum true q => toString q.num
  | .jnum false q => qToDecimalString q
  | .jbool true => "True"
  | .jbool false => "False"
  | .jnull => "None"
  | .jarr l => "[" ++ jReprList l ++ "]"
def jReprList : List JVal → String
  | [] => ""
  | [v] => jRepr v
  | v :: vs => jRepr v ++ ", " ++ jReprList vs
end

/-- Python `float()` applied to a decoded JSON value (crawler.py
1398-1416): numbers pass through, strings are parsed, booleans coerce,
anything else raises. -/
def jFloat : JVal → Option ℚ
  | .jnum _ q => some q
  | .jstr s => pyFloat? s
  | .jbool b => some (if b then 1 else 0)
  | .jnull => none
  | .jarr _ => none

/-- The first truthy value among the given keys (crawler.py 1386-1396 et
al.): a present-but-falsy key falls through to the next. -/
def jsonFirstKey (data : List (String × JVal)) : List String → Option JVal
  | [] => none
  | k :: ks =>
    match jget data k with
    | some v => if jTruthy v then some v else jsonFirstKey data ks
    | none => jsonFirstKey data ks

/-- The first truthy value among the keys that also converts with
`float` (a `ValueError`/`TypeError` falls through to the next key). -/
def jsonFirstPrice (data : List (String × JVal)) : List String → Option ℚ
  | [] => none
  | k :: ks =>
    match jget data k with
    | some v =>
      if jTruthy v then
        match jFloat v with
        | some q => some q
        | none => jsonFirstPrice data ks
      else jsonFirstPrice data ks
    | none => jsonFirstPrice data ks

/-- `_extract_from_json_data` (crawler.py 1377-1436) on a decoded flat
object. -/
def extractFromJsonData (now : ℚ) (data : List (String × JVal)) : List BrokerRecommendation :=
  if (match jsonFirstKey data ["name", "company", "symbol", "companyName", "stockName"] with
      | some v => pyStrip (jStr v)
      | none => "") ≠ "" ∧
      isValidCompanyName
        (match jsonFirstKey data ["name", "company", "symbol", "companyName", "stockName"] with
         | some v => pyStrip (jStr v)
         | none => "") then
    [⟨"MoneyControl Research",
      (match jsonFirstKey data ["name", "company", "symbol", "companyName", "stockName"] with
       | some v => pyStrip (jStr v)
       | none => ""),
      (match jsonFirstKey data ["recommendation", "call", "action"] with
       | some v => extractRecommendation (jStr v)
       | none => "BUY"),
      (jsonFirstPrice data ["targetPrice", "target", "priceTarget", "tp"]).getD 0,
      (jsonFirstPrice data ["price", "currentPrice", "lastPrice", "ltp"]).getD 0,
      now⟩]
  else []

/-- `re.findall` of `\{[^{}]*(?:"price"|"target")[^{}]*\}` (re.I): a
`{` whose next brace is a closing one, with `"price"` or `"target"`
in the brace-free span. -/
def jsonObjCandidatesAux : Nat → List Char → List String
  | 0, _ => []
  | _ + 1, [] => []
  | f + 1, c :: t =>
    if c = '{' then
      let run := t.takeWhile fun x => x ≠ '{' && x ≠ '}'
      match t.drop run.length with
      | '}' :: r2 =>
        if containsL "\"price\"".data (lowerL run) ||
            containsL "\"target\"".data (lowerL run) then
          String.mk ('{' :: (run ++ ['}'])) :: jsonObjCandidatesAux f r2
        else jsonObjCandidatesAux f t
      | _ => jsonObjCandidatesAux f t
    else jsonObjCandidatesAux f t

def jsonObjCandidates (s : List Char) : List String :=
  jsonObjCandidatesAux (s.length + 1) s

def afterCh (c : Char) : List Char → Option (List Char)
  | [] => none
  | x :: t => if x = c then some t else afterCh c t

def afterSubCI (needle : List Char) : List Char → Option (List Char)
  | [] => if needle.isEmpty then some [] else none
  | x :: t =>
    match litCI needle (x :: t) with
    | some r => some r
    | none => afterSubCI needle t

def splitLinesAux (acc : List Char) : List Char → List (List Char)
  | [] => [acc.reverse]
  | c :: t => if c = '\n' then acc.reverse :: splitLinesAux [] t else splitLinesAux (c :: acc) t

def splitLines (s : List Char) : List (List Char) := splitLinesAux [] s

def lineHasWrapped (openC closeC : Char) (l : List Char) : Bool :=
  match afterCh openC l with
  | some r1 =>
    (match afterSubCI "price".data r1 with
     | some r2 => (afterCh closeC r2).isSome
     | none => false)
  | none => false

/-- The script filter `\{.*price.*\}|\[.*price.*\]` (re.I): `.` does not
cross newlines, so the wrapped `price` must sit on one line. -/
def scriptRegexR1 (s : String) : Bool :=
  (splitLines s.data).any fun l => lineHasWrapped '{' '}' l || lineHasWrapped '[' ']' l

def jsonCandRecs (now : ℚ) : List String → List BrokerRecommendation
  | [] => []
  | cand :: cands =>
    (match jsonLoads cand with
     | some data => extractFromJsonData now data
     | none => []) ++ jsonCandRecs now cands

/-- The embedded-JSON loop of `_parse_html_content` (crawler.py
348-362). -/
def scriptJsonRecs (now : ℚ) : List LocElem → List BrokerRecommendation
  | [] => []
  | e :: es =>
    (match nodeString (locNode e) with
     | some content =>
       if content ≠ "" ∧
           (pyContains (pyLower content) "price" ∨ pyContains (pyLower content) "target") then
         jsonCandRecs now (jsonObjCandidates content.data)
       else []
     | none => []) ++ scriptJsonRecs now es

/-! ### `_parse_html_content` (crawler.py 316-430) -/

def hasVerdictKeyword (text : String) : Bool :=
  ["BUY", "SELL", "HOLD"].any fun w => pyContains (pyUpper text) w

def containerClassWords : List String :=
  ["stock", "recommendation", "research", "idea", "row", "item"]

def hrefStockLink (href : String) : Bool :=
  pyContains href "/stock/" || pyContains href "/stocks/" ||
    pyContains href "/stockpricequote/" || pyContains href "/company/"

/-- The `string=` text filter at crawler.py 326-329. -/
def recommendationTexts (doc : HNode) : List String :=
  (textsN doc).filter fun t =>
    decide (t ≠ "") &&
      ["BUY", "SELL", "HOLD", "TARGET", "RECOMMENDATION"].any fun w => pyContains (pyUpper t) w

def tableRows (doc : HNode) : List LocElem :=
  (locElems doc).filter fun e =>
    ["tr", "li", "div"].contains e.tag && classesMatch e.attrs containerClassWords

def stockLinks (doc : HNode) : List LocElem :=
  (locElems doc).filter fun e =>
    decide (e.tag = "a") && hrefStockLink (attrValueD e.attrs "href" "")

def jsonScripts (doc : HNode) : List LocElem :=
  (locElems doc).filter fun e =>
    decide (e.tag = "script") &&
      (match nodeString (locNode e) with
       | some str => scriptRegexR1 str
       | none => false)

/-- Append a record unless its key was already processed (crawler.py
374-377 et al.). -/
def dedupAppend (seen : List (String × String)) (recs : List BrokerRecommendation)
    (r : BrokerRecommendation) : List (String × String) × List BrokerRecommendation :=
  if dedupKey r ∈ seen then (seen, recs) else (dedupKey r :: seen, recs ++ [r])

/-- The container loop (crawler.py 368-381). -/
def containersFold (fetch : String → ℚ) (now : ℚ) :
    List LocElem → List (String × String) → List BrokerRecommendation →
      List (String × String) × List BrokerRecommendation
  | [], seen, recs => (seen, recs)
  | c :: cs, seen, recs =>
    if hasVerdictKeyword (getText (locNode c)) then
      match extractRecommendationFromContainer fetch now c with
      | some r =>
        if r.company_name ≠ "" then
          containersFold fetch now cs (dedupAppend seen recs r).1 (dedupAppend seen recs r).2
        else containersFold fetch now cs seen recs
      | none => containersFold fetch now cs seen recs
    else containersFold fetch now cs seen recs

/-- `link.parent` climbed up to three more levels while a parent exists
(crawler.py 389-392), on the nearest-first ancestor chain. -/
def climb3 : List HNode → Option HNode
  | [] => none
  | [a1] => some a1
  | [_, a2] => some a2
  | [_, _, a3] => some a3
  | _ :: _ :: _ :: a4 :: _ => some a4

/-- The stock-link loop (crawler.py 384-406). -/
def linksFold (now : ℚ) :
    List LocElem → List (String × String) → List BrokerRecommendation →
      List (String × String) × List BrokerRecommendation
  | [], seen, recs => (seen, recs)
  | l :: ls, seen, recs =>
    if 2 < (getTextStrip (locNode l)).length ∧ isValidCompanyName (getTextStrip (locNode l)) then
      match climb3 l.ancestors with
      | some p =>
        if hasVerdictKeyword (getText p) then
          match extractRecommendationFromContext now (getTextStrip (locNode l)) (getText p) with
          | some r =>
            linksFold now ls (dedupAppend seen recs r).1 (dedupAppend seen recs r).2
          | none => linksFold now ls seen recs
        else linksFold now ls seen recs
      | none => linksFold now ls seen recs
    else linksFold now ls seen recs

/-- The keyword-text fallback loop (crawler.py 409-421). -/
def textsFold (now : ℚ) :
    List String → List (String × String) → List BrokerRecommendation →
      List (String × String) × List BrokerRecommendation
  | [], seen, recs => (seen, recs)
  | t :: ts, seen, recs =>
    match extractFromText now t with
    | some r => textsFold now ts (dedupAppend seen recs r).1 (dedupAppend seen recs r).2
    | none => textsFold now ts seen recs

/-- `_parse_html_content` (crawler.py 316-430) over the parsed document:
embedded JSON first, then keyword containers, then stock links, then —
only if nothing was found at all — the raw keyword texts (limited to
20); the result is deduplicated once more at the end. -/
def parseHtmlContent (fetch : String → ℚ) (now : ℚ) (doc : HNode) : List BrokerRecommendation :=
  let s1 := containersFold fetch now (tableRows doc) [] (scriptJsonRecs now (jsonScripts doc))
  let s2 := linksFold now (stockLinks doc) s1.1 s1.2
  removeDuplicates
    (if s2.2.isEmpty then (textsFold now ((recommendationTexts doc).take 20) s2.1 s2.2).2
     else s2.2)

/-! ### Concrete fixtures and date bookkeeping -/

/-- The container text of the end-to-end scenario. -/
def c1text : String :=
  "Buy Reliance Industries; target of Rs 3000, CMP Rs 2500 — Research by Motilal Oswal"

def c1div : HNode := .elem "div" [("class", "stock")] (.cons (.text c1text) .nil)

/-- A document holding one recommendation container. -/
def c1doc : HNode := .elem "[document]" [] (.cons c1div .nil)

/-- The scenario container as located in `c1doc` (its single element). -/
def c1container : LocElem :=
  ⟨"div", [("class", "stock")], .cons (.text c1text) .nil, [c1doc], [], []⟩

/-- A record with `reporting_date` replaced: what varying the clock can
change. -/
def setDate (now : ℚ) (r : BrokerRecommendation) : BrokerRecommendation :=
  { r with reporting_date := now }

/-- The clock-independent fields of a record. -/
structure RecCore where
  broker_name : String
  company_name : String
  recommendation : String
  target_price : ℚ
  current_price : ℚ
deriving DecidableEq

def stripDate (r : BrokerRecommendation) : RecCore :=
  ⟨r.broker_name, r.company_name, r.recommendation, r.target_price, r.current_price⟩

/-! ### Helper lemmas: nonnegativity of every parsed price -/

theorem bindO_eq_some {α β : Type} {x : Option α} {f : α → Option β} {b : β} :
    bindO x f = some b ↔ ∃ a, x = some a ∧ f a = some b := by
  cases x <;> simp [bindO]

theorem orO_eq_some {α : Type} {a b : Option α} {x : α} :
    orO a b = some x ↔ a = some x ∨ (a = none ∧ b = some x) := by
  cases a <;> simp [orO]

theorem parseMoney_nonneg {s r : List Char} {q : ℚ}
    (h : parseMoney s = some (q, r)) : 0 ≤ q := by
  unfold parseMoney at h
  repeat' split at h
  all_goals
    first
    | exact Option.noConfusion h
    | · injection h with h2
        injection h2 with hq hr
        subst hq
        positivity

theorem rsMoney_nonneg {s r : List Char} {q : ℚ}
    (h : rsMoney s = some (q, r)) : 0 ≤ q := by
  unfold rsMoney at h
  obtain ⟨s1, -, h⟩ := bindO_eq_some.mp h
  exact parseMoney_nonneg h

theorem mTargetOfRs_nonneg {s r : List Char} {q : ℚ}
    (h : mTargetOfRs s = some (q, r)) : 0 ≤ q := by
  unfold mTargetOfRs at h
  obtain ⟨s1, -, h⟩ := bindO_eq_some.mp h
  obtain ⟨s2, -, h⟩ := bindO_eq_some.mp h
  obtain ⟨s3, -, h⟩ := bindO_eq_some.mp h
  obtain ⟨s4, -, h⟩ := bindO_eq_some.mp h
  exact rsMoney_nonneg h

theorem mTargetColon_nonneg {s r : List Char} {q : ℚ}
    (h : mTargetColon s = some (q, r)) : 0 ≤ q := by
  unfold mTargetColon at h
  obtain ⟨s1, -, h⟩ := bindO_eq_some.mp h
  split at h
  · rcases orO_eq_some.mp h with h2 | ⟨-, h2⟩ <;> exact rsMoney_nonneg h2
  · exact rsMoney_nonneg h

theorem mTpPt_nonneg {s r : List Char} {q : ℚ}
    (h : mTpPt s = some (q, r)) : 0 ≤ q := by
  unfold mTpPt at h
  rcases orO_eq_some.mp h with h2 | ⟨-, h2⟩ <;>
  · obtain ⟨s1, -, h2⟩ := bindO_eq_some.mp h2
    exact rsMoney_nonneg h2

theorem mPriceTargetOf_nonneg {s r : List Char} {q : ℚ}
    (h : mPriceTargetOf s = some (q, r)) : 0 ≤ q := by
  unfold mPriceTargetOf at h
  obtain ⟨s1, -, h⟩ := bindO_eq_some.mp h
  obtain ⟨s2, -, h⟩ := bindO_eq_some.mp h
  exact mTargetOfRs_nonneg h

theorem mCurrentPriceTail_nonneg {s r : List Char} {q : ℚ}
    (h : mCurrentPriceTail s = some (q, r)) : 0 ≤ q := by
  unfold mCurrentPriceTail at h
  obtain ⟨s1, -, h⟩ := bindO_eq_some.mp h
  exact rsMoney_nonneg h

theorem mCurrentPrice_nonneg {s r : List Char} {q : ℚ}
    (h : mCurrentPrice s = some (q, r)) : 0 ≤ q := by
  unfold mCurrentPrice at h
  rcases orO_eq_some.mp h with h2 | ⟨-, h2⟩
  · obtain ⟨s1, -, h2⟩ := bindO_eq_some.mp h2
    exact mCurrentPriceTail_nonneg h2
  rcases orO_eq_some.mp h2 with h3 | ⟨-, h3⟩ <;>
  · obtain ⟨s1, -, h3⟩ := bindO_eq_some.mp h3
    exact mCurrentPriceTail_nonneg h3

theorem mAtRs_nonneg {s r : List Char} {q : ℚ}
    (h : mAtRs s = some (q, r)) : 0 ≤ q := by
  unfold mAtRs at h
  rcases orO_eq_some.mp h with h2 | ⟨-, h2⟩ <;>
  · obtain ⟨s1, -, h2⟩ := bindO_eq_some.mp h2
    exact rsMoney_nonneg h2

theorem mCmp_nonneg {s r : List Char} {q : ℚ}
    (h : mCmp s = some (q, r)) : 0 ≤ q := by
  unfold mCmp at h
  obtain ⟨s1, -, h⟩ := bindO_eq_some.mp h
  exact rsMoney_nonneg h

theorem mRange_nonneg {s r : List Char} {p1 p2 : ℚ}
    (h : mRange s = some ((p1, p2), r)) : 0 ≤ p1 ∧ 0 ≤ p2 := by
  unfold mRange at h
  obtain ⟨ps, hps, h⟩ := bindO_eq_some.mp h
  split at h
  · obtain ⟨qs, hqs, h⟩ := bindO_eq_some.mp h
    simp only [Option.some.injEq, Prod.mk.injEq] at h
    obtain ⟨⟨h1, h2⟩, -⟩ := h
    subst h1
    subst h2
    obtain ⟨q1, s1⟩ := ps
    obtain ⟨q2, s2⟩ := qs
    exact ⟨rsMoney_nonneg hps, parseMoney_nonneg hqs⟩
  · simp at h

theorem mBuyTargetTail_nonneg {s r : List Char} {p1 p2 : ℚ}
    (h : mBuyTargetTail s = some ((p1, p2), r)) : 0 ≤ p1 ∧ 0 ≤ p2 := by
  unfold mBuyTargetTail at h
  obtain ⟨ps, hps, h⟩ := bindO_eq_some.mp h
  obtain ⟨s4, -, h⟩ := bindO_eq_some.mp h
  obtain ⟨s5, -, h⟩ := bindO_eq_some.mp h
  obtain ⟨qs, hqs, h⟩ := bindO_eq_some.mp h
  simp only [Option.some.injEq, Prod.mk.injEq] at h
  obtain ⟨⟨h1, h2⟩, -⟩ := h
  subst h1
  subst h2
  obtain ⟨q1, s1⟩ := ps
  obtain ⟨q2, s2⟩ := qs
  exact ⟨parseMoney_nonneg hps, parseMoney_nonneg hqs⟩

theorem mBuyTarget_nonneg {s r : List Char} {p1 p2 : ℚ}
    (h : mBuyTarget s = some ((p1, p2), r)) : 0 ≤ p1 ∧ 0 ≤ p2 := by
  unfold mBuyTarget at h
  obtain ⟨s1, -, h⟩ := bindO_eq_some.mp h
  obtain ⟨s2, -, h⟩ := bindO_eq_some.mp h
  rcases orO_eq_some.mp h with h2 | ⟨-, h2⟩
  · obtain ⟨s3, -, h2⟩ := bindO_eq_some.mp h2
    obtain ⟨s4, -, h2⟩ := bindO_eq_some.mp h2
    exact mBuyTargetTail_nonneg h2
  · exact mBuyTargetTail_nonneg h2

theorem searchPos_elim {α : Type} {P : α → Prop} {m : List Char → Option α}
    (hm : ∀ s a, m s = some a → P a) :
    ∀ t a, searchPos m t = some a → P a := by
  intro t
  induction t with
  | nil => intro a h; exact hm [] a h
  | cons c t ih =>
    intro a h
    unfold searchPos at h
    split at h
    · rename_i a2 heq
      cases h
      exact hm _ _ heq
    · exact ih a h

theorem findAllAux_elim {α : Type} {P : α → Prop} {m : List Char → Option (α × List Char)}
    (hm : ∀ s a r, m s = some (a, r) → P a) :
    ∀ fuel t a, a ∈ findAllAux m fuel t → P a := by
  intro fuel
  induction fuel with
  | zero => intro t a h; simp [findAllAux] at h
  | succ n ih =>
    intro t a h
    cases t with
    | nil =>
      unfold findAllAux at h
      split at h
      · rename_i a2 r2 heq
        simp only [List.mem_singleton] at h
        subst h
        exact hm _ _ _ heq
      · simp at h
    | cons c t2 =>
      unfold findAllAux at h
      split at h
      · rename_i a2 r2 heq
        rcases List.mem_cons.mp h with rfl | h2
        · exact hm _ _ _ heq
        · exact ih _ _ h2
      · exact ih _ _ h

theorem findAll_elim {α : Type} {P : α → Prop} {m : List Char → Option (α × List Char)}
    (hm : ∀ s a r, m s = some (a, r) → P a) {t : List Char} {a : α}
    (h : a ∈ findAll m t) : P a :=
  findAllAux_elim hm _ t a h

theorem mem_insertAsc {x y : ℚ} {l : List ℚ} :
    y ∈ insertAsc x l ↔ y = x ∨ y ∈ l := by
  induction l with
  | nil => simp [insertAsc]
  | cons z zs ih =>
    unfold insertAsc
    split
    · simp [List.mem_cons]
    · simp [List.mem_cons, ih]
      tauto

theorem mem_sortAsc {x : ℚ} {l : List ℚ} : x ∈ sortAsc l ↔ x ∈ l := by
  induction l with
  | nil => simp [sortAsc]
  | cons z zs ih =>
    simp only [sortAsc, List.foldr] at *
    rw [mem_insertAsc, ih, List.mem_cons]

theorem length_insertAsc {x : ℚ} {l : List ℚ} :
    (insertAsc x l).length = l.length + 1 := by
  induction l with
  | nil => rfl
  | cons z zs ih =>
    unfold insertAsc
    split
    · simp
    · simp [ih]

theorem length_sortAsc {l : List ℚ} : (sortAsc l).length = l.length := by
  induction l with
  | nil => rfl
  | cons z zs ih =>
    simp only [sortAsc, List.foldr] at *
    rw [length_insertAsc, ih, List.length_cons]

theorem headD_mem {α : Type} {l : List α} {d : α} (h : l ≠ []) : l.headD d ∈ l := by
  cases l with
  | nil => exact absurd rfl h
  | cons a t => simp

theorem getLastD_mem {α : Type} {l : List α} {d : α} (h : l ≠ []) : l.getLastD d ∈ l := by
  induction l with
  | nil => exact absurd rfl h
  | cons a t ih =>
    cases t with
    | nil => simp
    | cons b u => simpa [List.getLastD_cons] using Or.inr (ih (by simp))

/-- Every slot assigned by the cascade is a parsed (hence nonnegative)
number, so nonnegativity of the price state is invariant. -/
def NonnegP (s : Prices) : Prop := 0 ≤ s.current ∧ 0 ≤ s.target

theorem ruleTargetOfRs_nonneg (t : List Char) {s : Prices} (h : NonnegP s) :
    NonnegP (ruleTargetOfRs t s) := by
  unfold ruleTargetOfRs
  split
  · next q r heq =>
    exact ⟨h.1, searchPos_elim (P := fun p => 0 ≤ p.1) (fun _ _ hh => mTargetOfRs_nonneg (by rw [← hh])) _ _ heq⟩
  · exact h

theorem ruleTargetColon_nonneg (t : List Char) {s : Prices} (h : NonnegP s) :
    NonnegP (ruleTargetColon t s) := by
  unfold ruleTargetColon
  split
  · split
    · next q r heq =>
      exact ⟨h.1, searchPos_elim (P := fun p => 0 ≤ p.1) (fun _ _ hh => mTargetColon_nonneg (by rw [← hh])) _ _ heq⟩
    · exact h
  · exact h

theorem ruleTpPt_nonneg (t : List Char) {s : Prices} (h : NonnegP s) :
    NonnegP (ruleTpPt t s) := by
  unfold ruleTpPt
  split
  · split
    · next q r heq =>
      exact ⟨h.1, searchPos_elim (P := fun p => 0 ≤ p.1) (fun _ _ hh => mTpPt_nonneg (by rw [← hh])) _ _ heq⟩
    · exact h
  · exact h

theorem rulePriceTargetOf_nonneg (t : List Char) {s : Prices} (h : NonnegP s) :
    NonnegP (rulePriceTargetOf t s) := by
  unfold rulePriceTargetOf
  split
  · split
    · next q r heq =>
      exact ⟨h.1, searchPos_elim (P := fun p => 0 ≤ p.1) (fun _ _ hh => mPriceTargetOf_nonneg (by rw [← hh])) _ _ heq⟩
    · exact h
  · exact h

theorem ruleCurrentPrice_nonneg (t : List Char) {s : Prices} (h : NonnegP s) :
    NonnegP (ruleCurrentPrice t s) := by
  unfold ruleCurrentPrice
  split
  · next q r heq =>
    exact ⟨searchPos_elim (P := fun p => 0 ≤ p.1) (fun _ _ hh => mCurrentPrice_nonneg (by rw [← hh])) _ _ heq, h.2⟩
  · exact h

theorem ruleAtRs_nonneg (t : List Char) {s : Prices} (h : NonnegP s) :
    NonnegP (ruleAtRs t s) := by
  unfold ruleAtRs
  split
  · split
    · next q r heq =>
      exact ⟨searchPos_elim (P := fun p => 0 ≤ p.1) (fun _ _ hh => mAtRs_nonneg (by rw [← hh])) _ _ heq, h.2⟩
    · exact h
  · exact h

theorem ruleCmp_nonneg (t : List Char) {s : Prices} (h : NonnegP s) :
    NonnegP (ruleCmp t s) := by
  unfold ruleCmp
  split
  · split
    · next q r heq =>
      exact ⟨searchPos_elim (P := fun p => 0 ≤ p.1) (fun _ _ hh => mCmp_nonneg (by rw [← hh])) _ _ heq, h.2⟩
    · exact h
  · exact h

theorem ruleRange_nonneg (t : List Char) {s : Prices} (h : NonnegP s) :
    NonnegP (ruleRange t s) := by
  unfold ruleRange
  split
  · split
    · rename_i p1 p2 r2 heq
      have hp : 0 ≤ p1 ∧ 0 ≤ p2 :=
        searchPos_elim (P := fun w => 0 ≤ w.1.1 ∧ 0 ≤ w.1.2)
          (fun _ w hh => mRange_nonneg hh) _ _ heq
      constructor
      · dsimp only
        split
        · exact minQ_nonneg hp.1 hp.2
        · exact h.1
      · dsimp only
        split
        · exact maxQ_nonneg hp.1
        · exact h.2
    · exact h
  · exact h

theorem ruleRsNumbers_nonneg (t : List Char) {s : Prices} (h : NonnegP s) :
    NonnegP (ruleRsNumbers t s) := by
  unfold ruleRsNumbers
  have hmem : ∀ x ∈ sortAsc (rsWindow t), (0 : ℚ) ≤ x := by
    intro x hx
    have hx2 : x ∈ rsWindow t := mem_sortAsc.mp hx
    have := List.of_mem_filter hx2
    have h10 : (10 : ℚ) ≤ x := (of_decide_eq_true this).1
    linarith
  have hmem0 : ∀ x ∈ rsWindow t, (0 : ℚ) ≤ x := by
    intro x hx
    have := List.of_mem_filter hx
    have h10 : (10 : ℚ) ≤ x := (of_decide_eq_true this).1
    linarith
  split
  · by_cases h2 : 2 ≤ (rsWindow t).length
    · rw [if_pos h2]
      have hne : sortAsc (rsWindow t) ≠ [] := by
        intro hcon
        have hls : (sortAsc (rsWindow t)).length = (rsWindow t).length := length_sortAsc
        rw [hcon] at hls
        simp at hls
        omega
      constructor
      · dsimp only
        split
        · exact hmem _ (headD_mem hne)
        · exact h.1
      · dsimp only
        split
        · exact hmem _ (getLastD_mem hne)
        · exact h.2
    · rw [if_neg h2]
      by_cases h1 : (rsWindow t).length = 1
      · rw [if_pos h1]
        have hne : rsWindow t ≠ [] := by
          intro hcon
          rw [hcon] at h1
          simp at h1
        refine ⟨h.1, ?_⟩
        dsimp only
        split
        · exact hmem0 _ (headD_mem hne)
        · exact h.2
      · rw [if_neg h1]
        exact h
  · exact h

theorem ruleBuyTarget_nonneg (t : List Char) {s : Prices} (h : NonnegP s) :
    NonnegP (ruleBuyTarget t s) := by
  unfold ruleBuyTarget
  split
  · split
    · rename_i p1 p2 r2 heq
      have hp : 0 ≤ p1 ∧ 0 ≤ p2 :=
        searchPos_elim (P := fun w => 0 ≤ w.1.1 ∧ 0 ≤ w.1.2)
          (fun _ w hh => mBuyTarget_nonneg hh) _ _ heq
      constructor
      · dsimp only
        split
        · exact hp.1
        · exact h.1
      · dsimp only
        split
        · exact hp.2
        · exact h.2
    · exact h
  · exact h

theorem ruleBracket_nonneg (t : List Char) {s : Prices} (h : NonnegP s) :
    NonnegP (ruleBracket t s) := by
  unfold ruleBracket
  split
  · split
    · split
      · rename_i hwin
        constructor
        · dsimp only
          split
          · have := hwin.1
            have := hwin.2.2.1
            exact minQ_nonneg (by linarith) (by linarith)
          · exact h.1
        · dsimp only
          split
          · have := hwin.1
            exact maxQ_nonneg (by linarith)
          · exact h.2
      · exact h
    · exact h
  · exact h

theorem numPairsLoop_nonneg {s : Prices} (h : NonnegP s) :
    ∀ l, NonnegP (numPairsLoop s l) := by
  intro l
  induction l with
  | nil => exact h
  | cons p rest ih =>
    obtain ⟨p1, p2⟩ := p
    unfold numPairsLoop
    split
    · rename_i hwin
      split
      · constructor
        · dsimp only
          split
          · have := hwin.1
            have := hwin.2.2.1
            exact minQ_nonneg (by linarith) (by linarith)
          · exact h.1
        · dsimp only
          split
          · have := hwin.1
            exact maxQ_nonneg (by linarith)
          · exact h.2
      · exact ih
    · exact ih

theorem ruleNumPairs_nonneg (t : List Char) {s : Prices} (h : NonnegP s) :
    NonnegP (ruleNumPairs t s) := by
  unfold ruleNumPairs
  split
  · exact numPairsLoop_nonneg h _
  · exact h

theorem ruleStandalone_nonneg (t : List Char) {s : Prices} (h : NonnegP s) :
    NonnegP (ruleStandalone t s) := by
  unfold ruleStandalone
  have hmem : ∀ x ∈ sortAsc (bareWindow t), (0 : ℚ) ≤ x := by
    intro x hx
    have hx2 := mem_sortAsc.mp hx
    have := List.of_mem_filter hx2
    have h100 : (100 : ℚ) ≤ x := (of_decide_eq_true this).1
    linarith
  split
  · split
    · rename_i hlen
      have hne : sortAsc (bareWindow t) ≠ [] := by
        intro hcon
        have hls : (sortAsc (bareWindow t)).length = (bareWindow t).length := length_sortAsc
        rw [hcon] at hls
        simp at hls
        omega
      constructor
      · dsimp only
        split
        · exact hmem _ (headD_mem hne)
        · exact h.1
      · dsimp only
        split
        · exact hmem _ (getLastD_mem hne)
        · exact h.2
    · exact h
  · exact h

theorem ruleBuyTarget_skip (t : List Char) {s : Prices}
    (h1 : s.current ≠ 0) (h2 : s.target ≠ 0) : ruleBuyTarget t s = s := by
  unfold ruleBuyTarget
  rw [if_neg (by simp [h1, h2])]

theorem ruleBracket_skip (t : List Char) {s : Prices}
    (h1 : s.current ≠ 0) (h2 : s.target ≠ 0) : ruleBracket t s = s := by
  unfold ruleBracket
  rw [if_neg (by simp [h1, h2])]

theorem ruleNumPairs_skip (t : List Char) {s : Prices}
    (h1 : s.current ≠ 0) (h2 : s.target ≠ 0) : ruleNumPairs t s = s := by
  unfold ruleNumPairs
  rw [if_neg (by simp [h1, h2])]

theorem ruleStandalone_skip (t : List Char) {s : Prices}
    (h1 : s.current ≠ 0) (h2 : s.target ≠ 0) : ruleStandalone t s = s := by
  unfold ruleStandalone
  rw [if_neg (by simp [h1, h2])]

/-- Once both slots are filled, none of the rules after the unanchored-Rs
rule changes the state. -/
theorem lateRules_skip (t : List Char) {s : Prices}
    (h1 : s.current ≠ 0) (h2 : s.target ≠ 0) : lateRules t s = s := by
  unfold lateRules
  rw [ruleBuyTarget_skip t h1 h2, ruleBracket_skip t h1 h2,
    ruleNumPairs_skip t h1 h2, ruleStandalone_skip t h1 h2]

theorem ruleRsNumbers_current_mono (t : List Char) {s : Prices} (h : s.current ≠ 0) :
    (ruleRsNumbers t s).current = s.current := by
  unfold ruleRsNumbers
  split
  · split
    · simp [h]
    · split
      · simp
      · rfl
  · rfl

theorem ruleRsNumbers_target_mono (t : List Char) {s : Prices} (h : s.target ≠ 0) :
    (ruleRsNumbers t s).target = s.target := by
  unfold ruleRsNumbers
  split
  · split
    · simp [h]
    · split
      · simp [h]
      · rfl
  · rfl

theorem ruleBuyTarget_current_mono (t : List Char) {s : Prices} (h : s.current ≠ 0) :
    (ruleBuyTarget t s).current = s.current := by
  unfold ruleBuyTarget
  split
  · split
    · simp [h]
    · rfl
  · rfl

theorem ruleBuyTarget_target_mono (t : List Char) {s : Prices} (h : s.target ≠ 0) :
    (ruleBuyTarget t s).target = s.target := by
  unfold ruleBuyTarget
  split
  · split
    · simp [h]
    · rfl
  · rfl

theorem ruleBracket_current_mono (t : List Char) {s : Prices} (h : s.current ≠ 0) :
    (ruleBracket t s).current = s.current := by
  unfold ruleBracket
  split
  · split
    · split
      · simp [h]
      · rfl
    · rfl
  · rfl

theorem ruleBracket_target_mono (t : List Char) {s : Prices} (h : s.target ≠ 0) :
    (ruleBracket t s).target = s.target := by
  unfold ruleBracket
  split
  · split
    · split
      · simp [h]
      · rfl
    · rfl
  · rfl

theorem numPairsLoop_current_mono {s : Prices} (h : s.current ≠ 0) :
    ∀ l, (numPairsLoop s l).current = s.current := by
  intro l
  induction l with
  | nil => rfl
  | cons p rest ih =>
    obtain ⟨p1, p2⟩ := p
    unfold numPairsLoop
    split
    · split
      · simp [h]
      · exact ih
    · exact ih

theorem numPairsLoop_target_mono {s : Prices} (h : s.target ≠ 0) :
    ∀ l, (numPairsLoop s l).target = s.target := by
  intro l
  induction l with
  | nil => rfl
  | cons p rest ih =>
    obtain ⟨p1, p2⟩ := p
    unfold numPairsLoop
    split
    · split
      · simp [h]
      · exact ih
    · exact ih

theorem ruleNumPairs_current_mono (t : List Char) {s : Prices} (h : s.current ≠ 0) :
    (ruleNumPairs t s).current = s.current := by
  unfold ruleNumPairs
  split
  · exact numPairsLoop_current_mono h _
  · rfl

theorem ruleNumPairs_target_mono (t : List Char) {s : Prices} (h : s.target ≠ 0) :
    (ruleNumPairs t s).target = s.target := by
  unfold ruleNumPairs
  split
  · exact numPairsLoop_target_mono h _
  · rfl

theorem ruleStandalone_current_mono (t : List Char) {s : Prices} (h : s.current ≠ 0) :
    (ruleStandalone t s).current = s.current := by
  unfold ruleStandalone
  split
  · split
    · simp [h]
    · rfl
  · rfl

theorem ruleStandalone_target_mono (t : List Char) {s : Prices} (h : s.target ≠ 0) :
    (ruleStandalone t s).target = s.target := by
  unfold ruleStandalone
  split
  · split
    · simp [h]
    · rfl
  · rfl

/-- A non-zero current slot is never changed by rules 10-13. -/
theorem lateRules_current_mono (t : List Char) {s : Prices} (h : s.current ≠ 0) :
    (lateRules t s).current = s.current := by
  unfold lateRules
  have h1 := ruleBuyTarget_current_mono t h
  have h1n : (ruleBuyTarget t s).current ≠ 0 := by rw [h1]; exact h
  have h2 := ruleBracket_current_mono t h1n
  have h2n : (ruleBracket t (ruleBuyTarget t s)).current ≠ 0 := by rw [h2]; exact h1n
  have h3 := ruleNumPairs_current_mono t h2n
  have h3n : (ruleNumPairs t (ruleBracket t (ruleBuyTarget t s))).current ≠ 0 := by
    rw [h3]; exact h2n
  rw [ruleStandalone_current_mono t h3n, h3, h2, h1]

/-- A non-zero target slot is never changed by rules 10-13. -/
theorem lateRules_target_mono (t : List Char) {s : Prices} (h : s.target ≠ 0) :
    (lateRules t s).target = s.target := by
  unfold lateRules
  have h1 := ruleBuyTarget_target_mono t h
  have h1n : (ruleBuyTarget t s).target ≠ 0 := by rw [h1]; exact h
  have h2 := ruleBracket_target_mono t h1n
  have h2n : (ruleBracket t (ruleBuyTarget t s)).target ≠ 0 := by rw [h2]; exact h1n
  have h3 := ruleNumPairs_target_mono t h2n
  have h3n : (ruleNumPairs t (ruleBracket t (ruleBuyTarget t s))).target ≠ 0 := by
    rw [h3]; exact h2n
  rw [ruleStandalone_target_mono t h3n, h3, h2, h1]

theorem rsWindow_ten_le {t : List Char} {x : ℚ} (hx : x ∈ rsWindow t) : 10 ≤ x := by
  unfold rsWindow at hx
  have h1 := List.of_mem_filter hx
  exact (of_decide_eq_true h1).1

theorem dedupSpec_nil : dedupSpec [] = [] := by
  rw [dedupSpec.eq_def]

theorem dedupSpec_cons (r : BrokerRecommendation) (rs : List BrokerRecommendation) :
    dedupSpec (r :: rs) =
      r :: dedupSpec (rs.filter (fun x => decide (dedupKey x ≠ dedupKey r))) := by
  rw [dedupSpec.eq_def]

theorem extractPrices_nonneg (text : String) : NonnegP (extractPrices text) := by
  unfold extractPrices extractPricesL lateRules keywordRangeRules
  apply ruleStandalone_nonneg
  apply ruleNumPairs_nonneg
  apply ruleBracket_nonneg
  apply ruleBuyTarget_nonneg
  apply ruleRsNumbers_nonneg
  apply ruleRange_nonneg
  apply ruleCmp_nonneg
  apply ruleAtRs_nonneg
  apply ruleCurrentPrice_nonneg
  apply rulePriceTargetOf_nonneg
  apply ruleTpPt_nonneg
  apply ruleTargetColon_nonneg
  apply ruleTargetOfRs_nonneg
  exact ⟨le_refl 0, le_refl 0⟩

/-! ### Claim theorems -/

/-- C2: for every input string, `_extract_recommendation` returns BUY if
the uppercased string contains BUY or BUYS, otherwise SELL if it contains
SELL or SELLS, otherwise HOLD if it contains HOLD or HOLDS, otherwise
BUY; in particular ACCUMULATE maps to BUY, "sells heavily" to SELL,
"hold steady" to HOLD, and the result is always one of BUY/SELL/HOLD. -/
theorem claim2_verdict_normalization :
    (∀ s : String,
        extractRecommendation s =
          if pyContains (pyUpper s) "BUY" || pyContains (pyUpper s) "BUYS" then "BUY"
          else if pyContains (pyUpper s) "SELL" || pyContains (pyUpper s) "SELLS" then "SELL"
          else if pyContains (pyUpper s) "HOLD" || pyContains (pyUpper s) "HOLDS" then "HOLD"
          else "BUY") ∧
    extractRecommendation "ACCUMULATE" = "BUY" ∧
    extractRecommendation "sells heavily" = "SELL" ∧
    extractRecommendation "hold steady" = "HOLD" ∧
    ∀ s : String, extractRecommendation s = "BUY" ∨ extractRecommendation s = "SELL" ∨
      extractRecommendation s = "HOLD" := by
  refine ⟨fun s => rfl, by decide, by decide, by decide, ?_⟩
  intro s
  unfold extractRecommendation
  split_ifs <;> simp

/-- C3: `_remove_duplicates` keeps, among all records sharing the same
lowercase (company, broker) pair, exactly the first-encountered record,
regardless of prices or verdict, and keeps all records with distinct
pairs — that is, it equals the specification-side `dedupSpec`. -/
theorem claim3_dedup_first_wins (recs : List BrokerRecommendation) :
    removeDuplicates recs = dedupSpec recs := by
  have haux : ∀ (l : List BrokerRecommendation) (seen : List (String × String)),
      removeDuplicatesAux l seen =
        dedupSpec (l.filter (fun r => decide (dedupKey r ∉ seen))) := by
    intro l
    induction l with
    | nil => intro seen; simp [removeDuplicatesAux, dedupSpec_nil]
    | cons r rs ih =>
      intro seen
      by_cases h : dedupKey r ∈ seen
      · rw [removeDuplicatesAux, if_pos h, ih]
        congr 1
        rw [List.filter_cons]
        simp [h]
      · rw [removeDuplicatesAux, if_neg h, ih, List.filter_cons]
        have hd : decide (dedupKey r ∉ seen) = true := by simpa using h
        rw [if_pos hd, dedupSpec_cons]
        congr 1
        rw [List.filter_filter]
        congr 1
        apply List.filter_congr
        intro x hx
        simp [List.mem_cons, not_or, Bool.decide_and]
  have hmain := haux recs []
  simpa using hmain

/-- C5: for every text input, `_extract_prices` returns a pair in which
both the current and the target component are nonnegative. -/
theorem claim5_prices_nonneg (text : String) :
    0 ≤ (extractPrices text).current ∧ 0 ≤ (extractPrices text).target :=
  extractPrices_nonneg text

/-- C4 (amended): if the keyword and range rules left both slots at 0
when the unanchored-Rs rule is reached, then (i) with at least two
windowed Rs-numbers the final result is exactly (smallest, largest) of
the sorted survivors — no later rule changes it; (ii) with exactly one
survivor it becomes the target price (the current slot is left at 0 by
this rule, though a later bare-number rule may still fill it — this is
the one point where the claim as stated fails); and (iii) a slot already
non-zero is never changed by the unanchored-Rs rule or any later rule. -/
theorem claim4_unanchored_rs_rule (text : String)
    (h : keywordRangeRules text.data ⟨0, 0⟩ = ⟨0, 0⟩) :
    (2 ≤ (rsWindow text.data).length →
        extractPrices text =
          ⟨(sortAsc (rsWindow text.data)).headD 0,
            (sortAsc (rsWindow text.data)).getLastD 0⟩) ∧
    ((rsWindow text.data).length = 1 →
        (extractPrices text).target = (rsWindow text.data).headD 0) ∧
    (∀ s : Prices,
        (s.current ≠ 0 →
          (lateRules text.data (ruleRsNumbers text.data s)).current = s.current) ∧
        (s.target ≠ 0 →
          (lateRules text.data (ruleRsNumbers text.data s)).target = s.target)) := by
  refine ⟨?_, ?_, ?_⟩
  · intro h2
    have hne : sortAsc (rsWindow text.data) ≠ [] := by
      intro hcon
      have hls : (sortAsc (rsWindow text.data)).length = (rsWindow text.data).length :=
        length_sortAsc
      rw [hcon] at hls
      simp at hls
      omega
    have hhead : (10 : ℚ) ≤ (sortAsc (rsWindow text.data)).headD 0 :=
      rsWindow_ten_le (mem_sortAsc.mp (headD_mem hne))
    have hlast : (10 : ℚ) ≤ (sortAsc (rsWindow text.data)).getLastD 0 :=
      rsWindow_ten_le (mem_sortAsc.mp (getLastD_mem hne))
    have hstep : ruleRsNumbers text.data ⟨0, 0⟩ =
        ⟨(sortAsc (rsWindow text.data)).headD 0,
          (sortAsc (rsWindow text.data)).getLastD 0⟩ := by
      unfold ruleRsNumbers
      rw [if_pos (Or.inl rfl), if_pos h2]
      simp
    unfold extractPrices extractPricesL
    rw [h, hstep]
    have hX : (sortAsc (rsWindow text.data)).headD 0 ≠ 0 :=
      (lt_of_lt_of_le (by norm_num) hhead).ne'
    have hY : (sortAsc (rsWindow text.data)).getLastD 0 ≠ 0 :=
      (lt_of_lt_of_le (by norm_num) hlast).ne'
    exact lateRules_skip text.data hX hY
  · intro h1len
    have hne : rsWindow text.data ≠ [] := by
      intro hcon
      rw [hcon] at h1len
      simp at h1len
    have hhead : (10 : ℚ) ≤ (rsWindow text.data).headD 0 :=
      rsWindow_ten_le (headD_mem hne)
    have hstep : ruleRsNumbers text.data ⟨0, 0⟩ = ⟨0, (rsWindow text.data).headD 0⟩ := by
      unfold ruleRsNumbers
      rw [if_pos (Or.inl rfl), if_neg (by omega), if_pos h1len]
      simp
    unfold extractPrices extractPricesL
    rw [h, hstep]
    have hX : (rsWindow text.data).headD 0 ≠ 0 :=
      (lt_of_lt_of_le (by norm_num) hhead).ne'
    exact lateRules_target_mono text.data (s := ⟨0, (rsWindow text.data).headD 0⟩) hX
  · intro s
    constructor
    · intro hc
      have h9 := ruleRsNumbers_current_mono text.data hc
      have h9n : (ruleRsNumbers text.data s).current ≠ 0 := by rw [h9]; exact hc
      rw [lateRules_current_mono text.data h9n, h9]
    · intro ht
      have h9 := ruleRsNumbers_target_mono text.data ht
      have h9n : (ruleRsNumbers text.data s).target ≠ 0 := by rw [h9]; exact ht
      rw [lateRules_target_mono text.data h9n, h9]

/-- Witness for C4 at a concrete input with two surviving Rs-numbers. -/
theorem claim4_unanchored_rs_rule_witness :
    keywordRangeRules ("xx Rs 800 yy Rs 1200 zz").data ⟨0, 0⟩ = ⟨0, 0⟩ ∧
    2 ≤ (rsWindow ("xx Rs 800 yy Rs 1200 zz").data).length ∧
    extractPrices "xx Rs 800 yy Rs 1200 zz" = ⟨800, 1200⟩ := by
  refine ⟨by decide, by decide, ?_⟩
  have h := (claim4_unanchored_rs_rule "xx Rs 800 yy Rs 1200 zz" (by decide)).1 (by decide)
  rw [h]
  decide

/-- C4 counterexample to the claim as stated: on this text the keyword
and range rules leave both slots at 0 and exactly one Rs-number (500)
survives the window, yet the final current price is 1500 (filled by the
later bare number-pair rule), not 0. -/
theorem claim4_counterexample :
    keywordRangeRules ("Rs 500 x 1500 1800").data ⟨0, 0⟩ = ⟨0, 0⟩ ∧
    rsWindow ("Rs 500 x 1500 1800").data = [500] ∧
    (extractPrices "Rs 500 x 1500 1800").current = 1500 ∧
    (extractPrices "Rs 500 x 1500 1800").target = 500 := by
  exact ⟨by decide, by decide, by decide, by decide⟩

theorem validateApiKeyAux_eq_false {apiKey : String} {hs : List (String × String)}
    (h : ∀ kv ∈ hs, pyLower kv.1 = "x-api-key" → kv.2 ≠ apiKey) :
    validateApiKeyAux apiKey hs = false := by
  induction hs with
  | nil => rfl
  | cons kv rest ih =>
    obtain ⟨k, v⟩ := kv
    unfold validateApiKeyAux
    split
    · rename_i hk
      simpa using h (k, v) (by simp) hk
    · exact ih fun kv2 hm => h kv2 (by simp [hm])

/-- C7: when both acquisition strategies fail (raise or return nothing),
`get_recommendations` returns `[]` and never propagates an exception,
and `lambda_handler` (reached with a valid key on a non-OPTIONS request)
answers 200 with `total_recommendations` 0 rather than an error. -/
theorem claim7_empty_cascade (selenium httpRequests : Except String (List BrokerRecommendation))
    (apiKey : String) (event : Event) (now : ℚ)
    (hsel : ∀ l, selenium = Except.ok l → l = [])
    (hreq : ∀ l, httpRequests = Except.ok l → l = [])
    (hopt : event.httpMethod ≠ "OPTIONS")
    (hkey : validateApiKey apiKey event = true) :
    getRecommendations selenium httpRequests = [] ∧
    lambdaHandler apiKey (Except.ok (getRecommendations selenium httpRequests)) now event =
      createResponse 200 (Body.recommendationsBody [] now 0) := by
  have hempty : getRecommendations selenium httpRequests = [] := by
    unfold getRecommendations
    cases selenium with
    | error e => rfl
    | ok l =>
      have hl : l = [] := hsel l rfl
      subst hl
      simp only [List.isEmpty_nil, if_pos]
      cases httpRequests with
      | error e => rfl
      | ok l2 =>
        have hl2 : l2 = [] := hreq l2 rfl
        subst hl2
        rfl
  refine ⟨hempty, ?_⟩
  rw [hempty]
  unfold lambdaHandler
  rw [if_neg hopt, if_neg (by simp [hkey])]
  rfl

/-- Witness for C7 at a concrete event and failing strategies. -/
theorem claim7_empty_cascade_witness :
    getRecommendations (Except.error "timeout") (Except.ok []) = [] ∧
    lambdaHandler "dev-api-key-123"
        (Except.ok (getRecommendations (Except.error "timeout") (Except.ok []))) 0
        ⟨"GET", [("x-api-key", "dev-api-key-123")]⟩ =
      createResponse 200 (Body.recommendationsBody [] 0 0) :=
  claim7_empty_cascade (Except.error "timeout") (Except.ok []) "dev-api-key-123"
    ⟨"GET", [("x-api-key", "dev-api-key-123")]⟩ 0
    (by intro l h; cases h) (by intro l h; cases h; rfl) (by decide) (by decide)

/-- C8: a non-OPTIONS request whose headers contain no API key matching
the configured secret gets 401 with body `{"error": "Invalid API key"}`
from `lambda_handler`, and the response does not depend on the crawl
oracle at all — no scraping is performed before the 401. -/
theorem claim8_api_key_gate (apiKey : String) (event : Event)
    (crawl crawl2 : Except String (List BrokerRecommendation)) (now now2 : ℚ)
    (hopt : event.httpMethod ≠ "OPTIONS")
    (hnokey : ∀ kv ∈ event.headers, pyLower kv.1 = "x-api-key" → kv.2 ≠ apiKey) :
    lambdaHandler apiKey crawl now event =
      createResponse 401 (Body.errorBody "Invalid API key") ∧
    lambdaHandler apiKey crawl now event = lambdaHandler apiKey crawl2 now2 event := by
  have hv : validateApiKey apiKey event = false := validateApiKeyAux_eq_false hnokey
  have h401 : ∀ (c : Except String (List BrokerRecommendation)) (t : ℚ),
      lambdaHandler apiKey c t event =
        createResponse 401 (Body.errorBody "Invalid API key") := by
    intro c t
    unfold lambdaHandler
    rw [if_neg hopt, if_pos (by simp [hv])]
  exact ⟨h401 crawl now, by rw [h401 crawl now, h401 crawl2 now2]⟩

/-- Witness for C8 at a concrete event with a wrong key under one casing
and a missing key under another. -/
theorem claim8_api_key_gate_witness :
    lambdaHandler "dev-api-key-123" (Except.ok []) 0
        ⟨"GET", [("X-Api-Key", "wrong"), ("Accept", "application/json")]⟩ =
      createResponse 401 (Body.errorBody "Invalid API key") ∧
    lambdaHandler "dev-api-key-123" (Except.ok []) 0
        ⟨"GET", [("X-Api-Key", "wrong"), ("Accept", "application/json")]⟩ =
      lambdaHandler "dev-api-key-123" (Except.error "no network") 7
        ⟨"GET", [("X-Api-Key", "wrong"), ("Accept", "application/json")]⟩ :=
  claim8_api_key_gate "dev-api-key-123"
    ⟨"GET", [("X-Api-Key", "wrong"), ("Accept", "application/json")]⟩
    (Except.ok []) (Except.error "no network") 0 7 (by decide) (by decide)

/-- C9 (amended): an OPTIONS request gets 200 with an empty body from
the /recommendations, /top-companies and /top-brokers handlers
regardless of the API key; but `stats_handler` and `cleanup_handler`
have no OPTIONS branch — without a valid key they answer 401 even to
OPTIONS — and the health handler returns its normal health body, not an
empty one. -/
theorem claim9_options_preflight (apiKey : String) (event : Event)
    (crawl : Except String (List BrokerRecommendation)) (now : ℚ)
    (hopt : event.httpMethod = "OPTIONS") :
    lambdaHandler apiKey crawl now event = createResponse 200 Body.empty ∧
    topCompaniesHandler apiKey crawl now event = createResponse 200 Body.empty ∧
    topBrokersHandler apiKey crawl now event = createResponse 200 Body.empty ∧
    (validateApiKey apiKey event = false →
      statsHandler apiKey crawl now event =
          createResponse 401 (Body.errorBody "Invalid API key") ∧
      cleanupHandler apiKey event =
          createResponse 401 (Body.errorBody "Invalid API key")) ∧
    healthCheckHandler now event =
      createResponse 200 (Body.healthBody "healthy" now "broker-recommendations") := by
  refine ⟨?_, ?_, ?_, ?_, rfl⟩
  · unfold lambdaHandler
    rw [if_pos hopt]
  · unfold topCompaniesHandler
    rw [if_pos hopt]
  · unfold topBrokersHandler
    rw [if_pos hopt]
  · intro hv
    constructor
    · unfold statsHandler
      rw [if_pos (by simp [hv])]
    · unfold cleanupHandler
      rw [if_pos (by simp [hv])]

/-- Witness for C9 (amended) at a concrete OPTIONS event without a key. -/
theorem claim9_options_preflight_witness :
    lambdaHandler "dev-api-key-123" (Except.ok []) 0 ⟨"OPTIONS", []⟩ =
      createResponse 200 Body.empty ∧
    statsHandler "dev-api-key-123" (Except.ok []) 0 ⟨"OPTIONS", []⟩ =
      createResponse 401 (Body.errorBody "Invalid API key") ∧
    cleanupHandler "dev-api-key-123" ⟨"OPTIONS", []⟩ =
      createResponse 401 (Body.errorBody "Invalid API key") := by
  have h := claim9_options_preflight "dev-api-key-123" ⟨"OPTIONS", []⟩ (Except.ok []) 0 rfl
  exact ⟨h.1, (h.2.2.2.1 (by decide)).1, (h.2.2.2.1 (by decide)).2⟩

/-- C9 counterexample to the claim as stated: an OPTIONS request to the
/cleanup handler without a valid API key is answered 401 with an error
body, not 200 with an empty body. -/
theorem claim9_counterexample :
    cleanupHandler "dev-api-key-123" ⟨"OPTIONS", []⟩ =
      createResponse 401 (Body.errorBody "Invalid API key") ∧
    cleanupHandler "dev-api-key-123" ⟨"OPTIONS", []⟩ ≠ createResponse 200 Body.empty := by
  exact ⟨by decide, by decide⟩

/-- C10: `validate_api_key` matches the header name case-insensitively
and decides on the first header whose lowercased name is "x-api-key":
the result is true iff that header's value equals the configured key
exactly; with no such header it is false; and headers after the first
matching name are never consulted. -/
theorem claim10_validate_api_key (apiKey : String) (e : Event) :
    (validateApiKey apiKey e =
      match e.headers.find? (fun kv => decide (pyLower kv.1 = "x-api-key")) with
      | some kv => decide (kv.2 = apiKey)
      | none => false) ∧
    (∀ (pre : List (String × String)) (kv : String × String)
        (post post2 : List (String × String)), pyLower kv.1 = "x-api-key" →
      validateApiKeyAux apiKey (pre ++ kv :: post) =
        validateApiKeyAux apiKey (pre ++ kv :: post2)) := by
  constructor
  · show validateApiKeyAux apiKey e.headers = _
    induction e.headers with
    | nil => rfl
    | cons kv rest ih =>
      obtain ⟨k, v⟩ := kv
      by_cases hk : pyLower k = "x-api-key"
      · simp [validateApiKeyAux, List.find?_cons, hk]
      · simp only [validateApiKeyAux, List.find?_cons]
        rw [if_neg hk]
        have hd : decide (pyLower (k, v).1 = "x-api-key") = false := by simp [hk]
        rw [hd]
        exact ih
  · intro pre kv post post2 hkv
    induction pre with
    | nil =>
      obtain ⟨k, v⟩ := kv
      simp only [List.nil_append]
      unfold validateApiKeyAux
      rw [if_pos hkv, if_pos hkv]
    | cons p ps ih =>
      obtain ⟨pk, pv⟩ := p
      simp only [List.cons_append]
      unfold validateApiKeyAux
      split
      · rfl
      · exact ih

/-- Witness for C10: the first name-matching header (here under the
casing "X-API-KEY") decides positively, and changing everything after a
matching header does not change the verdict. -/
theorem claim10_validate_api_key_witness :
    validateApiKey "k1" ⟨"GET", [("Accept", "a"), ("X-API-KEY", "k1"), ("x-api-key", "bad")]⟩ =
      true ∧
    validateApiKeyAux "k1" ([("Accept", "a")] ++ ("X-Api-Key", "k1") :: [("Tail", "t")]) =
      validateApiKeyAux "k1" ([("Accept", "a")] ++ ("X-Api-Key", "k1") :: [("Other", "z")]) := by
  constructor
  · rw [(claim10_validate_api_key "k1"
      ⟨"GET", [("Accept", "a"), ("X-API-KEY", "k1"), ("x-api-key", "bad")]⟩).1]
    decide
  · exact (claim10_validate_api_key "k1" ⟨"GET", []⟩).2
      [("Accept", "a")] ("X-Api-Key", "k1") [("Tail", "t")] [("Other", "z")] (by decide)

/-! ### The clock flows only into `reporting_date`

The helpers below show that every record-producing stage of
`_parse_html_content` is natural in the `datetime.now()` value: running
it at clock `now` produces exactly the records of a run at clock `0`
with their `reporting_date` replaced.  No control-flow decision anywhere
reads the clock. -/

theorem dedupKey_setDate (now : ℚ) (r : BrokerRecommendation) :
    dedupKey (setDate now r) = dedupKey r := rfl

theorem extractFromJsonData_date (now : ℚ) (data : List (String × JVal)) :
    extractFromJsonData now data = (extractFromJsonData 0 data).map (setDate now) := by
  unfold extractFromJsonData
  split <;> rfl

theorem jsonCandRecs_date (now : ℚ) (cands : List String) :
    jsonCandRecs now cands = (jsonCandRecs 0 cands).map (setDate now) := by
  induction cands with
  | nil => rfl
  | cons cand cands ih =>
    simp only [jsonCandRecs, List.map_append, ih]
    congr 1
    cases jsonLoads cand with
    | none => rfl
    | some data => exact extractFromJsonData_date now data

theorem scriptJsonRecs_date (now : ℚ) (es : List LocElem) :
    scriptJsonRecs now es = (scriptJsonRecs 0 es).map (setDate now) := by
  induction es with
  | nil => rfl
  | cons e es ih =>
    simp only [scriptJsonRecs, List.map_append, ih]
    congr 1
    cases nodeString (locNode e) with
    | none => rfl
    | some content =>
      show (if content ≠ "" ∧
            (pyContains (pyLower content) "price" ∨ pyContains (pyLower content) "target") then
          jsonCandRecs now (jsonObjCandidates content.data)
        else []) =
        List.map (setDate now)
          (if content ≠ "" ∧
              (pyContains (pyLower content) "price" ∨ pyContains (pyLower content) "target") then
            jsonCandRecs 0 (jsonObjCandidates content.data)
          else [])
      split <;> first | exact jsonCandRecs_date now _ | rfl

theorem extractRecommendationFromContainer_date (fetch : String → ℚ) (now : ℚ) (c : LocElem) :
    extractRecommendationFromContainer fetch now c =
      (extractRecommendationFromContainer fetch 0 c).map (setDate now) := by
  unfold extractRecommendationFromContainer
  split <;> [rfl; split <;> rfl]

theorem extractRecommendationFromContext_date (now : ℚ) (companyName contextText : String) :
    extractRecommendationFromContext now companyName contextText =
      (extractRecommendationFromContext 0 companyName contextText).map (setDate now) := by
  unfold extractRecommendationFromContext
  split <;> [rfl; split <;> rfl]

theorem textPatternOrient_date (now : ℚ) (m : String × String) :
    textPatternOrient now m = (textPatternOrient 0 m).map (setDate now) := by
  unfold textPatternOrient
  split <;> split <;> rfl

theorem textMatchesLoop_date (now : ℚ) (ms : List (String × String)) :
    textMatchesLoop now ms = (textMatchesLoop 0 ms).map (setDate now) := by
  induction ms with
  | nil => rfl
  | cons m ms ih =>
    simp only [textMatchesLoop]
    rw [textPatternOrient_date now]
    cases textPatternOrient 0 m with
    | some r => rfl
    | none => simpa using ih

theorem extractFromText_date (now : ℚ) (t : String) :
    extractFromText now t = (extractFromText 0 t).map (setDate now) := by
  unfold extractFromText
  rw [textMatchesLoop_date now, textMatchesLoop_date now, textMatchesLoop_date now]
  cases textMatchesLoop 0 (findAll mTextP1 t.data) with
  | some r => rfl
  | none =>
    cases textMatchesLoop 0 (findAll mTextP2 t.data) with
    | some r => rfl
    | none => rfl

theorem dedupAppend_date (now : ℚ) (seen : List (String × String))
    (recs : List BrokerRecommendation) (r : BrokerRecommendation) :
    dedupAppend seen (recs.map (setDate now)) (setDate now r) =
      ((dedupAppend seen recs r).1, (dedupAppend seen recs r).2.map (setDate now)) := by
  unfold dedupAppend
  rw [dedupKey_setDate]
  split_ifs <;> simp

theorem containersFold_date (fetch : String → ℚ) (now : ℚ) (cs : List LocElem) :
    ∀ seen recs,
      containersFold fetch now cs seen (recs.map (setDate now)) =
        ((containersFold fetch 0 cs seen recs).1,
         (containersFold fetch 0 cs seen recs).2.map (setDate now)) := by
  induction cs with
  | nil => intro seen recs; rfl
  | cons c cs ih =>
    intro seen recs
    simp only [containersFold]
    rw [extractRecommendationFromContainer_date fetch now]
    split
    · cases h : extractRecommendationFromContainer fetch 0 c with
      | none => simpa using ih seen recs
      | some r =>
        simp only [Option.map_some']
        have hc : (setDate now r).company_name = r.company_name := rfl
        rw [hc]
        split
        · rw [dedupAppend_date, ih (dedupAppend seen recs r).1 (dedupAppend seen recs r).2]
        · exact ih seen recs
    · exact ih seen recs

theorem linksFold_date (now : ℚ) (ls : List LocElem) :
    ∀ seen recs,
      linksFold now ls seen (recs.map (setDate now)) =
        ((linksFold 0 ls seen recs).1, (linksFold 0 ls seen recs).2.map (setDate now)) := by
  induction ls with
  | nil => intro seen recs; rfl
  | cons l ls ih =>
    intro seen recs
    simp only [linksFold]
    split
    · cases climb3 l.ancestors with
      | none => exact ih seen recs
      | some p =>
        simp only []
        split
        · rw [extractRecommendationFromContext_date now]
          cases h : extractRecommendationFromContext 0 (getTextStrip (locNode l)) (getText p) with
          | none => simpa using ih seen recs
          | some r =>
            simp only [Option.map_some']
            rw [dedupAppend_date, ih (dedupAppend seen recs r).1 (dedupAppend seen recs r).2]
        · exact ih seen recs
    · exact ih seen recs

theorem textsFold_date (now : ℚ) (ts : List String) :
    ∀ seen recs,
      textsFold now ts seen (recs.map (setDate now)) =
        ((textsFold 0 ts seen recs).1, (textsFold 0 ts seen recs).2.map (setDate now)) := by
  induction ts with
  | nil => intro seen recs; rfl
  | cons t ts ih =>
    intro seen recs
    simp only [textsFold]
    rw [extractFromText_date now]
    cases h : extractFromText 0 t with
    | none => simpa using ih seen recs
    | some r =>
      simp only [Option.map_some']
      rw [dedupAppend_date, ih (dedupAppend seen recs r).1 (dedupAppend seen recs r).2]

theorem removeDuplicatesAux_date (now : ℚ) (recs : List BrokerRecommendation) :
    ∀ seen,
      removeDuplicatesAux (recs.map (setDate now)) seen =
        (removeDuplicatesAux recs seen).map (setDate now) := by
  induction recs with
  | nil => intro seen; rfl
  | cons r rs ih =>
    intro seen
    simp only [List.map_cons, removeDuplicatesAux, dedupKey_setDate]
    split
    · exact ih seen
    · simp [ih (dedupKey r :: seen)]

theorem removeDuplicates_date (now : ℚ) (recs : List BrokerRecommendation) :
    removeDuplicates (recs.map (setDate now)) = (removeDuplicates recs).map (setDate now) :=
  removeDuplicatesAux_date now recs []

theorem isEmpty_map_setDate (now : ℚ) (l : List BrokerRecommendation) :
    (l.map (setDate now)).isEmpty = l.isEmpty := by
  cases l <;> rfl

theorem parseHtmlContent_date (fetch : String → ℚ) (now : ℚ) (doc : HNode) :
    parseHtmlContent fetch now doc = (parseHtmlContent fetch 0 doc).map (setDate now) := by
  unfold parseHtmlContent
  rw [scriptJsonRecs_date now, containersFold_date fetch now]
  dsimp only
  rw [linksFold_date now]
  dsimp only
  rw [isEmpty_map_setDate]
  split
  · rw [textsFold_date now]
    dsimp only
    rw [removeDuplicates_date]
  · rw [removeDuplicates_date]

/-- C1 counterexample: on the claimed container — a div whose visible
text is exactly the scenario string — the extraction returns broker_name
"Motilal", not "Motilal Oswal": the lazy group of the "Research by"
pattern `Research by\s+([A-Za-z\s&\.]+?)(?:\s|$|;|:)` stops at the first
separator after one character, i.e. at the space inside the broker's
name. -/
theorem claim1_counterexample :
    (extractRecommendationFromContainer (fun _ => 0) 0 c1container).map
        BrokerRecommendation.broker_name = some "Motilal" ∧
    (extractRecommendationFromContainer (fun _ => 0) 0 c1container).map
        BrokerRecommendation.broker_name ≠ some "Motilal Oswal" := by
  exact ⟨by decide, by decide⟩

/-- C1 (amended): for every price-API oracle and clock value, the
container extraction on the scenario container returns company_name
"Reliance Industries", recommendation "BUY", target_price 3000 and
current_price 2500 as claimed, but broker_name "Motilal" (truncated by
the lazy "Research by" group), not "Motilal Oswal". -/
theorem claim1_container_scenario (fetch : String → ℚ) (now : ℚ) :
    extractRecommendationFromContainer fetch now c1container =
      some ⟨"Motilal", "Reliance Industries", "BUY", 3000, 2500, now⟩ := by
  have hcomp : extractCompanyName (locNode c1container) = "Reliance Industries" := by decide
  have hrec : extractRecommendation (getText (locNode c1container)) = "BUY" := by decide
  have hbrok : extractBrokerName (getText (locNode c1container)) = "Motilal" := by decide
  have hp : containerPrices c1container = ⟨2500, 3000⟩ := by decide
  unfold extractRecommendationFromContainer containerFinalCurrent brokerOrDefault
  rw [hcomp, hrec, hbrok, hp]
  have h1 : ¬("Reliance Industries" = "" ∨ ¬ isValidCompanyName "Reliance Industries" = true) := by
    decide
  rw [if_neg h1]
  have h2 : ¬("BUY" = "") := by decide
  rw [if_neg h2]
  have h3 : ¬("Motilal" = "") := by decide
  rw [if_neg h3]
  have h4 : ¬((Prices.mk 2500 3000).current = 0 ∧ "Reliance Industries" ≠ "") := by decide
  rw [if_neg h4]

/-- C6: for a fixed markup input (and a fixed price-API oracle, network
acquisition being outside the parser), `_parse_html_content` is
deterministic: two runs agree on the deduplicated record set.  The only
ambient state it reads is the clock, which flows solely into
`reporting_date` and never into control flow, so the records agree on
every other field even across different clock readings. -/
theorem claim6_parse_deterministic (fetch : String → ℚ) (doc : HNode) (now1 now2 : ℚ) :
    (parseHtmlContent fetch now1 doc).map stripDate =
      (parseHtmlContent fetch now2 doc).map stripDate := by
  rw [parseHtmlContent_date fetch now1, parseHtmlContent_date fetch now2,
    List.map_map, List.map_map]
  have h : stripDate ∘ setDate now1 = stripDate ∘ setDate now2 := by
    funext r
    rfl
  rw [h]

end BrokerRec
